import Mathlib

/-!
# PI-Day-Visualizations: vector, input, animation and widget core

A shallow embedding of the UI core of the toolkit (`vector/vector.js`,
`vector/vector_math.js`, `input/input.js`, `UI/animation.js`,
`UI/user_interface.js`) together with theorems about it.

Conventions of the embedding.

* JavaScript numbers are modelled by an arbitrary linearly ordered field `α`
  (exact arithmetic: no rounding, no NaN, no infinities). Statements that need
  the cosine are made over `ℝ`. Division by zero is not modelled: every theorem
  on the value of a quotient assumes a non-zero divisor.
* Objects are values. A method that mutates its receiver is a function that
  returns the receiver after the call. The embedding assumes that distinct
  fields hold distinct objects (no two fields share one vector object, and an
  array holds each object once).
* For the statements on what a vector method writes and what it returns, the
  methods of `vector` are given a second time on objects in a memory (`Heap`),
  statement by statement; `Heap.Effect` relates them to the functions on
  values.
* The process-wide `user_input` object is passed explicitly.
* A call that throws (a `TypeError`) is modelled by `none`.
* The three callbacks of a widget are host functions. The embedding records
  which of them is invoked and assumes, like the default `() => {}`, that they
  do not touch the widget or the input state.
-/

namespace PiDay

/-! ## The host object `Math` -/

/-- The members of the host object `Math` that the toolkit reads (`Math.random`
is left out). `atan2` takes `y` first, as in the source. -/
structure JSMath (α : Type) where
  PI : α
  cos : α → α
  sin : α → α
  sqrt : α → α
  atan2 : α → α → α
  round : α → α
  floor : α → α

/-- The object `Math` in exact real arithmetic: `Math.round` rounds a tie
upwards; `Math.atan2(y, x)` is the argument of `x + y i`, in `(-π, π]`, and `0`
at the origin. Signed zeros are not modelled: on doubles `Math.atan2(+0, -0)`
is `π`, so the value at the origin is used only where both components are
`+0` in the source as well. -/
noncomputable def realMath : JSMath ℝ :=
  { PI := Real.pi
    cos := Real.cos
    sin := Real.sin
    sqrt := Real.sqrt
    atan2 := fun y x => Complex.arg { re := x, im := y }
    round := fun x => ((Int.floor (x + 1 / 2) : ℤ) : ℝ)
    floor := fun x => ((Int.floor x : ℤ) : ℝ) }

/-! ## vector/vector.js -/

/-- Class `vector`: a pair of numbers. -/
structure vector (α : Type) where
  x : α
  y : α
deriving DecidableEq

variable {α : Type} [LinearOrderedField α]

/-- Method `copy()`: a new object with the same components. -/
def vector.copy (self : vector α) : vector α :=
  { x := self.x, y := self.y }

/-- Method `set(x, y)`: the receiver after the call; the returned copy has the
same components. -/
def vector.set (_self : vector α) (x y : α) : vector α :=
  { x := x, y := y }

/-- Method `setV(vector)`: the receiver after `this.set(vector.x, vector.y)`. -/
def vector.setV (self : vector α) (v : vector α) : vector α :=
  self.set v.x v.y

/-- Method `sub(x, y)`: the receiver after `this.set(this.x - x, this.y - y)`. -/
def vector.sub (self : vector α) (x y : α) : vector α :=
  self.set (self.x - x) (self.y - y)

/-- Method `subV(vector)`: the receiver after `this.sub(vector.x, vector.y)`. -/
def vector.subV (self : vector α) (v : vector α) : vector α :=
  self.sub v.x v.y

/-- Method `add(x, y)`: the receiver after `this.x += x; this.y += y`. -/
def vector.add (self : vector α) (x y : α) : vector α :=
  { x := self.x + x, y := self.y + y }

/-- Method `addV(vector)`: the receiver after `this.add(vector.x, vector.y)`. -/
def vector.addV (self : vector α) (v : vector α) : vector α :=
  self.add v.x v.y

/-- Method `within_range(min, max)`, with the two conditional expressions of the
source kept as they are. -/
def vector.within_range (self : vector α) (min max : vector α) : Bool :=
  (if self.x < min.x then false else if self.x > max.x then false else true) &&
  (if self.y < min.y then false else if self.y > max.y then false else true)

/-- Getter `length`. -/
def vector.length (M : JSMath α) (self : vector α) : α :=
  M.sqrt (self.x ^ 2 + self.y ^ 2)

/-- Getter `angle`. -/
def vector.angle (M : JSMath α) (self : vector α) : α :=
  M.atan2 self.y self.x

/-- Method `scale(x, y)`: the receiver after `this.x *= x; this.y *= y`. -/
def vector.scale (self : vector α) (x y : α) : vector α :=
  { x := self.x * x, y := self.y * y }

/-- Method `scaleV(vector)`: the receiver after `this.scale(vector.x, vector.y)`. -/
def vector.scaleV (self : vector α) (v : vector α) : vector α :=
  self.scale v.x v.y

/-- Method `normalize()`: the receiver after both components are divided by
the length read at the start. -/
def vector.normalize (M : JSMath α) (self : vector α) : vector α :=
  let length := self.length M
  { x := self.x / length, y := self.y / length }

/-- Method `clamp(min, max)`: the receiver after the call. -/
def vector.clamp (self : vector α) (min max : vector α) : vector α :=
  self.set (if self.x < min.x then min.x else if self.x > max.x then max.x else self.x)
    (if self.y < min.y then min.y else if self.y > max.y then max.y else self.y)

/-- Method `setByAngle(angle, length)`: the receiver after the call. -/
def vector.setByAngle (M : JSMath α) (self : vector α) (angle length : α) : vector α :=
  self.set (M.cos angle * length) (M.sin angle * length)

/-- Method `rotate(angle)`: the receiver after the call. -/
def vector.rotate (M : JSMath α) (self : vector α) (angle : α) : vector α :=
  let length := self.length M
  let new_angle := self.angle M + angle
  self.setByAngle M new_angle length

/-- Method `addOffsetByAngle(angle, length)`: the receiver after the call. -/
def vector.addOffsetByAngle (M : JSMath α) (self : vector α) (angle length : α) : vector α :=
  let original_vector := self.copy
  let this1 := self.setByAngle M angle length
  let angle_offset := this1.copy
  this1.setV (original_vector.addV angle_offset)

/-- Method `round()`: the receiver after the call. -/
def vector.round (M : JSMath α) (self : vector α) : vector α :=
  self.set (M.round self.x) (M.round self.y)

/-- Method `floor()`: the receiver after the call. -/
def vector.floor (M : JSMath α) (self : vector α) : vector α :=
  self.set (M.floor self.x) (M.floor self.y)

/-- Method `celi()`: the receiver after the call; the source calls
`Math.round` on both components. -/
def vector.celi (M : JSMath α) (self : vector α) : vector α :=
  self.set (M.round self.x) (M.round self.y)

/-! ## vector/vector.js: the methods on objects in memory

The methods once more, statement by statement, on vector objects held in a
memory: a call writes to the object it is called on and returns a reference
to a new object. -/

/-- The vector objects in memory: `obj r` is the object behind the reference
`r`; the references below `next` are in use. -/
structure Heap (α : Type) where
  obj : Nat → vector α
  next : Nat

/-- The expression `new vector(x, y)`: the memory after it and the reference
to the new object. -/
def Heap.new (h : Heap α) (x y : α) : Heap α × Nat :=
  ({ obj := fun r => if r = h.next then { x := x, y := y } else h.obj r, next := h.next + 1 },
    h.next)

/-- The assignment `this.x = x`. -/
def Heap.setX (h : Heap α) (self : Nat) (x : α) : Heap α :=
  { h with obj := fun r => if r = self then { h.obj self with x := x } else h.obj r }

/-- The assignment `this.y = y`. -/
def Heap.setY (h : Heap α) (self : Nat) (y : α) : Heap α :=
  { h with obj := fun r => if r = self then { h.obj self with y := y } else h.obj r }

/-- Method `copy()`. -/
def Heap.copy (h : Heap α) (self : Nat) : Heap α × Nat :=
  h.new (h.obj self).x (h.obj self).y

/-- Method `set(x, y)`. -/
def Heap.set (h : Heap α) (self : Nat) (x y : α) : Heap α × Nat :=
  let h1 := h.setX self x
  let h2 := h1.setY self y
  h2.copy self

/-- Method `setV(vector)`. -/
def Heap.setV (h : Heap α) (self v : Nat) : Heap α × Nat :=
  let h1 := (h.set self (h.obj v).x (h.obj v).y).1
  h1.copy self

/-- Method `sub(x, y)`. -/
def Heap.sub (h : Heap α) (self : Nat) (x y : α) : Heap α × Nat :=
  let h1 := (h.set self ((h.obj self).x - x) ((h.obj self).y - y)).1
  h1.copy self

/-- Method `subV(vector)`. -/
def Heap.subV (h : Heap α) (self v : Nat) : Heap α × Nat :=
  let h1 := (h.sub self (h.obj v).x (h.obj v).y).1
  h1.copy self

/-- Method `add(x, y)`. -/
def Heap.add (h : Heap α) (self : Nat) (x y : α) : Heap α × Nat :=
  let h1 := h.setX self ((h.obj self).x + x)
  let h2 := h1.setY self ((h1.obj self).y + y)
  h2.copy self

/-- Method `addV(vector)`. -/
def Heap.addV (h : Heap α) (self v : Nat) : Heap α × Nat :=
  let h1 := (h.add self (h.obj v).x (h.obj v).y).1
  h1.copy self

/-- Method `scale(x, y)`. -/
def Heap.scale (h : Heap α) (self : Nat) (x y : α) : Heap α × Nat :=
  let h1 := h.setX self ((h.obj self).x * x)
  let h2 := h1.setY self ((h1.obj self).y * y)
  h2.copy self

/-- Method `scaleV(vector)`. -/
def Heap.scaleV (h : Heap α) (self v : Nat) : Heap α × Nat :=
  let h1 := (h.scale self (h.obj v).x (h.obj v).y).1
  h1.copy self

/-- Method `normalize()`. -/
def Heap.normalize (M : JSMath α) (h : Heap α) (self : Nat) : Heap α × Nat :=
  let length := (h.obj self).length M
  let h1 := h.setX self ((h.obj self).x / length)
  let h2 := h1.setY self ((h1.obj self).y / length)
  h2.copy self

/-- Method `clamp(min, max)`. -/
def Heap.clamp (h : Heap α) (self min max : Nat) : Heap α × Nat :=
  let h1 := (h.set self
    (if (h.obj self).x < (h.obj min).x then (h.obj min).x
     else if (h.obj self).x > (h.obj max).x then (h.obj max).x else (h.obj self).x)
    (if (h.obj self).y < (h.obj min).y then (h.obj min).y
     else if (h.obj self).y > (h.obj max).y then (h.obj max).y else (h.obj self).y)).1
  h1.copy self

/-- Method `setByAngle(angle, length)`. -/
def Heap.setByAngle (M : JSMath α) (h : Heap α) (self : Nat) (angle length : α) : Heap α × Nat :=
  let h1 := (h.set self (M.cos angle * length) (M.sin angle * length)).1
  h1.copy self

/-- Method `rotate(angle)`. -/
def Heap.rotate (M : JSMath α) (h : Heap α) (self : Nat) (angle : α) : Heap α × Nat :=
  let length := (h.obj self).length M
  let new_angle := (h.obj self).angle M + angle
  let h1 := (h.setByAngle M self new_angle length).1
  h1.copy self

/-- Method `addOffsetByAngle(angle, length)`. -/
def Heap.addOffsetByAngle (M : JSMath α) (h : Heap α) (self : Nat) (angle length : α) :
    Heap α × Nat :=
  let original_vector := h.copy self
  let angle_offset := original_vector.1.setByAngle M self angle length
  let sum := angle_offset.1.addV original_vector.2 angle_offset.2
  let h1 := (sum.1.setV self sum.2).1
  h1.copy self

/-- Method `round()`. -/
def Heap.round (M : JSMath α) (h : Heap α) (self : Nat) : Heap α × Nat :=
  let h1 := (h.set self (M.round (h.obj self).x) (M.round (h.obj self).y)).1
  h1.copy self

/-- Method `floor()`. -/
def Heap.floor (M : JSMath α) (h : Heap α) (self : Nat) : Heap α × Nat :=
  let h1 := (h.set self (M.floor (h.obj self).x) (M.floor (h.obj self).y)).1
  h1.copy self

/-- Method `celi()`. -/
def Heap.celi (M : JSMath α) (h : Heap α) (self : Nat) : Heap α × Nat :=
  let h1 := (h.set self (M.round (h.obj self).x) (M.round (h.obj self).y)).1
  h1.copy self

/-- The expression `v.copy().addV(a).subV(a)`. -/
def Heap.roundTrip (h : Heap α) (v a : Nat) : Heap α × Nat :=
  let e1 := h.copy v
  let e2 := e1.1.addV e1.2 a
  e2.1.subV e2.2 a

/-! ## vector/vector_math.js -/

/-- Function `lerp(A, B, t)`. -/
def lerp (A B t : α) : α :=
  A + t * (B - A)

/-- Function `lerp_vector(vector0, vector1, t)`. -/
def lerp_vector (vector0 vector1 : vector α) (t : α) : vector α :=
  { x := lerp vector0.x vector1.x t, y := lerp vector0.y vector1.y t }

/-! ## input/input.js -/

/-- Object `user_input.mouse`. -/
structure Mouse (α : Type) where
  position : vector α
  is_down : Bool
  is_changed : Bool
  is_bizy : Bool
deriving DecidableEq

/-- The record stored in `user_input.keys[key]`. -/
structure KeyState where
  is_down : Bool
  is_changed : Bool
deriving DecidableEq

/-- Object `user_input`. The object `keys` is the list of its properties in
insertion order, each key name occurring once. -/
structure UserInput (α : Type) where
  mouse : Mouse α
  keys : List (String × KeyState)
  lastKeys : List String
deriving DecidableEq

/-- The value of `user_input` when the module is loaded. -/
def user_input : UserInput α :=
  { mouse := { position := { x := 0, y := 0 }, is_down := false, is_changed := false,
               is_bizy := false },
    keys := [],
    lastKeys := [] }

/-- Listener of `mousemove`: `user_input.mouse.position.set(clientX, clientY)`. -/
def mousemove (clientX clientY : α) (u : UserInput α) : UserInput α :=
  { u with mouse := { u.mouse with position := u.mouse.position.set clientX clientY } }

/-- Listener of `mousedown`. -/
def mousedown (u : UserInput α) : UserInput α :=
  { u with mouse := { u.mouse with is_down := true, is_changed := true } }

/-- Listener of `mouseup`. -/
def mouseup (u : UserInput α) : UserInput α :=
  { u with mouse := { u.mouse with is_down := false, is_changed := true } }

/-- Function `update_input()`: clears the mouse flag and the flag of every
recorded key. -/
def update_input (u : UserInput α) : UserInput α :=
  { u with
    mouse := { u.mouse with is_changed := false }
    keys := u.keys.map (fun kv => (kv.1, { kv.2 with is_changed := false })) }

/-- The call `array.indexOf(key)` on an array of strings, searched from its
first entry, which has index `i`: the index of the first entry equal to `key`,
or `-1`. -/
def arrayIndexOfFrom : List String → String → Nat → Int
  | [], _, _ => -1
  | x :: rest, key, i => if x = key then (i : Int) else arrayIndexOfFrom rest key (i + 1)

/-- The call `array.indexOf(key)`. -/
def arrayIndexOf (xs : List String) (key : String) : Int :=
  arrayIndexOfFrom xs key 0

/-- The call `array.splice(start, 1)`: the array after the call. A negative
`start` counts from the end of the array; nothing is removed when the start
position is the length of the array. -/
def splice1 (xs : List String) (start : Int) : List String :=
  let len : Int := xs.length
  let actualStart : Int := if start < 0 then max (len + start) 0 else min start len
  xs.eraseIdx actualStart.toNat

/-- Assignment `keys[key] = state`. -/
def assignKey : List (String × KeyState) → String → KeyState → List (String × KeyState)
  | [], key, state => [(key, state)]
  | (k, s) :: rest, key, state =>
    if k = key then (key, state) :: rest else (k, s) :: assignKey rest key state

/-- Read `keys[key]`: `none` stands for `undefined`. -/
def readKey : List (String × KeyState) → String → Option KeyState
  | [], _ => none
  | (k, s) :: rest, key => if k = key then some s else readKey rest key

/-- Listener of `keydown`. -/
def keydown (key : String) (u : UserInput α) : UserInput α :=
  let keys := assignKey u.keys key { is_down := true, is_changed := true }
  if u.lastKeys.getLast? ≠ some key ∧ arrayIndexOf u.lastKeys key = -1 then
    { u with keys := keys, lastKeys := u.lastKeys ++ [key] }
  else
    { u with keys := keys }

/-- Listener of `keyup`. -/
def keyup (key : String) (u : UserInput α) : UserInput α :=
  { u with
    keys := assignKey u.keys key { is_down := false, is_changed := true }
    lastKeys := splice1 u.lastKeys (arrayIndexOf u.lastKeys key) }

/-- Function `is_key_down(key)`. -/
def is_key_down (key : String) (u : UserInput α) : Option Bool :=
  (readKey u.keys key).map (fun s => s.is_down)

/-- Function `is_key_changed(key)`. -/
def is_key_changed (key : String) (u : UserInput α) : Option Bool :=
  (readKey u.keys key).map (fun s => s.is_changed)

/-- Function `is_mouse_down()`. -/
def is_mouse_down (u : UserInput α) : Bool :=
  u.mouse.is_down

/-- Function `is_mouse_changed()`. -/
def is_mouse_changed (u : UserInput α) : Bool :=
  u.mouse.is_changed

/-- Function `get_mouse_position()`. -/
def get_mouse_position (u : UserInput α) : vector α :=
  u.mouse.position.copy

/-- Function `get_last_key()`: the entry `lastKeys[0]`. -/
def get_last_key (u : UserInput α) : Option String :=
  u.lastKeys[0]?

/-- Function `get_last_keys()`: the loop `result += key` over `lastKeys`. -/
def get_last_keys (u : UserInput α) : String :=
  u.lastKeys.foldl (fun result key => result ++ key) ""

/-- Function `clear_last_keys()`. -/
def clear_last_keys (u : UserInput α) : UserInput α :=
  { u with lastKeys := [] }

/-- Function `clear_keys()`. -/
def clear_keys (u : UserInput α) : UserInput α :=
  { u with keys := [] }

/-- The call `string.indexOf(searchString)` on the characters of the string
that remain from index `i` on: the first index at which `searchString` occurs,
or `-1`. Strings are lists of characters here, lists of UTF-16 code units in
the source; the test `indexOf(...) === 0` is the same on both. -/
def stringIndexOfFrom (searchString : List Char) : List Char → Nat → Int
  | [], i => if searchString.isPrefixOf [] then (i : Int) else -1
  | c :: rest, i =>
    if searchString.isPrefixOf (c :: rest) then (i : Int)
    else stringIndexOfFrom searchString rest (i + 1)

/-- The call `string.indexOf(searchString)`. -/
def stringIndexOf (string searchString : String) : Int :=
  stringIndexOfFrom searchString.data string.data 0

/-- Function `get_sequence(sequence)`: the returned value and the input after
the call. -/
def get_sequence (sequence : String) (u : UserInput α) : Bool × UserInput α :=
  if stringIndexOf (get_last_keys u) sequence = 0 then (true, clear_last_keys u)
  else (false, u)

/-- One step on the input: an event delivered to a listener, or a call of one
of the functions that write to `user_input`. -/
inductive InputStep (α : Type) where
  | keydown (key : String)
  | keyup (key : String)
  | mousemove (clientX clientY : α)
  | mousedown
  | mouseup
  | update_input
  | clear_last_keys
  | clear_keys
  | get_sequence (sequence : String)

/-- The input after one step. -/
def InputStep.run : InputStep α → UserInput α → UserInput α
  | InputStep.keydown key, u => PiDay.keydown key u
  | InputStep.keyup key, u => PiDay.keyup key u
  | InputStep.mousemove clientX clientY, u => PiDay.mousemove clientX clientY u
  | InputStep.mousedown, u => PiDay.mousedown u
  | InputStep.mouseup, u => PiDay.mouseup u
  | InputStep.update_input, u => PiDay.update_input u
  | InputStep.clear_last_keys, u => PiDay.clear_last_keys u
  | InputStep.clear_keys, u => PiDay.clear_keys u
  | InputStep.get_sequence sequence, u => (PiDay.get_sequence sequence u).2

/-- The input after a list of steps, oldest first. -/
def runSteps (steps : List (InputStep α)) (u : UserInput α) : UserInput α :=
  steps.foldl (fun s step => step.run s) u

/-- The step is a `keydown` event. -/
def InputStep.isKeydown : InputStep α → Bool
  | InputStep.keydown _ => true
  | _ => false

/-! ## UI/user_interface.js: class Interactive -/

/-- The three callback fields of a widget. -/
inductive Callback where
  | idle_func
  | hover_func
  | click_func
deriving DecidableEq, Repr

/-- Class `Interactive` (the callback fields are kept outside, see `Callback`). -/
structure Interactive (α : Type) where
  position : vector α
  size : vector α
  hover : Bool
  click : Bool
  grab_enabled : Bool
  grab_offset : vector α
  grabbed : Bool
deriving DecidableEq

/-- Constructor of `Interactive`. -/
def Interactive.new (position size : vector α) (grab_enabled : Bool) : Interactive α :=
  { position := position, size := size, hover := false, click := false,
    grab_enabled := grab_enabled, grab_offset := { x := 0, y := 0 }, grabbed := false }

/-- First two statements of `mouse_check()`: `hover` and `click` are
recomputed from the input. -/
def Interactive.recompute (self : Interactive α) (u : UserInput α) : Interactive α :=
  let hover := u.mouse.position.within_range self.position (self.position.copy.addV self.size)
    && !u.mouse.is_bizy
  let click := hover && u.mouse.is_down && u.mouse.is_changed
  { self with hover := hover, click := click }

/-- The block `if (this.grab_enabled) { ... }` of `mouse_check()`. -/
def Interactive.grab (self : Interactive α) (u : UserInput α) : Interactive α :=
  if self.grab_enabled then
    let s1 :=
      if self.click && !self.grabbed then
        { self with grabbed := true, grab_offset := u.mouse.position.copy.subV self.position }
      else self
    if s1.grabbed then
      let s2 := { s1 with position := s1.position.setV (u.mouse.position.copy.subV s1.grab_offset) }
      if !u.mouse.is_down then { s2 with grabbed := false } else s2
    else s1
  else self

/-- The final `if / else if / else` of `mouse_check()`: the callbacks invoked,
in order. -/
def Interactive.dispatch (self : Interactive α) : List Callback :=
  if self.click then [Callback.click_func]
  else if self.hover then [Callback.hover_func]
  else [Callback.idle_func]

/-- Method `mouse_check()`: the widget after the call and the callbacks it
invoked. -/
def Interactive.mouse_check (self : Interactive α) (u : UserInput α) :
    Interactive α × List Callback :=
  let s := (self.recompute u).grab u
  (s, s.dispatch)

/-! ## UI/animation.js -/

/-- Function `easeInSine(x)`. -/
def easeInSine (M : JSMath α) (x : α) : α :=
  1 - M.cos ((x * M.PI) / 2)

/-- Function `easeInOutSine(x)`. -/
def easeInOutSine (M : JSMath α) (x : α) : α :=
  -(M.cos (M.PI * x) - 1) / 2

/-- Function `easeOutCubic(x)`; `Math.pow(1 - x, 3)` is the third power. -/
def easeOutCubic (x : α) : α :=
  1 - (1 - x) ^ 3

/-- Function `easeInOutCubic(x)`. -/
def easeInOutCubic (x : α) : α :=
  if x < 1 / 2 then 4 * x * x * x else 1 - (-2 * x + 2) ^ 3 / 2

/-- Table `easeFunctions`: the lookup `easeFunctions[name]`, which is
`undefined` (here `none`) for every name that is not a key of the table (the
names inherited from `Object.prototype` are left out of the embedding). -/
def easeFunctions (M : JSMath α) (name : String) : Option (α → α) :=
  if name = "sine" then some (easeInSine M)
  else if name = "inOutSine" then some (easeInOutSine M)
  else if name = "outCubic" then some easeOutCubic
  else if name = "inOutCubic" then some easeInOutCubic
  else none

/-- The keys of `easeFunctions`. -/
def easeNames : List String :=
  ["sine", "inOutSine", "outCubic", "inOutCubic"]

/-- An object with number-valued fields, the target of an `AnimationValue`. -/
abbrev NumObject (α : Type) : Type :=
  String → Option α

/-- Assignment `object[name] = v`. -/
def NumObject.assign (object : NumObject α) (name : String) (v : α) : NumObject α :=
  fun k => if k = name then some v else object k

/-- Class `AnimationValue`. The field `offset` does not exist before the first
`update`. -/
structure AnimationValue (α : Type) where
  value : String
  start : α
  end_ : α
  length : α
  t : α
  frame : α
  ease : String
  offset : Option α

/-- Constructor of `AnimationValue`. -/
def AnimationValue.new (value : String) (start end_ length : α) (ease : String) :
    AnimationValue α :=
  { value := value, start := start, end_ := end_, length := length, t := 0, frame := 0,
    ease := ease, offset := none }

/-- The frame counter after `this.frame++` and the clamp that follows it. -/
def nextFrame (frame length : α) : α :=
  if frame + 1 > length then length else frame + 1

/-- Method `AnimationValue.update(object)`: the animation and the target after
the call; `none` when `easeFunctions[this.ease]` is not a function. -/
def AnimationValue.update (M : JSMath α) (self : AnimationValue α) (object : NumObject α) :
    Option (AnimationValue α × NumObject α) :=
  let frame := nextFrame self.frame self.length
  match easeFunctions M self.ease with
  | none => none
  | some f =>
    let t := f (frame / self.length)
    let offset := lerp self.start self.end_ t
    some ({ self with frame := frame, t := t, offset := some offset },
          object.assign self.value offset)

/-- Method `AnimationValue.stop()`. -/
def AnimationValue.stop (self : AnimationValue α) : AnimationValue α :=
  { self with frame := self.length }

/-- Method `AnimationValue.reset()`. -/
def AnimationValue.reset (self : AnimationValue α) : AnimationValue α :=
  { self with frame := 0 }

/-- The receiver and the target after `k` successive calls of `update(object)`. -/
def AnimationValue.updateN (M : JSMath α) :
    Nat → AnimationValue α → NumObject α → Option (AnimationValue α × NumObject α)
  | 0, self, object => some (self, object)
  | k + 1, self, object =>
    match self.update M object with
    | none => none
    | some (self1, object1) => AnimationValue.updateN M k self1 object1

/-- Class `AnimationVector`. The field `offset` does not exist before the first
`update`. -/
structure AnimationVector (α : Type) where
  value : String
  start : vector α
  end_ : vector α
  length : α
  t : α
  frame : α
  ease : String
  offset : Option (vector α)
deriving DecidableEq

/-- Constructor of `AnimationVector`. -/
def AnimationVector.new (value : String) (start end_ : vector α) (length : α) (ease : String) :
    AnimationVector α :=
  { value := value, start := start, end_ := end_, length := length, t := 0, frame := 0,
    ease := ease, offset := none }

/-- The call `object[name].setV(v)` on a widget: its vector-valued fields are
`position`, `size` and `grab_offset`; for any other name the call throws. -/
def Interactive.setVField (object : Interactive α) (name : String) (v : vector α) :
    Option (Interactive α) :=
  if name = "position" then some { object with position := object.position.setV v }
  else if name = "size" then some { object with size := object.size.setV v }
  else if name = "grab_offset" then some { object with grab_offset := object.grab_offset.setV v }
  else none

/-- Method `AnimationVector.update(object)` with a widget as target: the
animation and the target after the call; `none` when the call throws. -/
def AnimationVector.update (M : JSMath α) (self : AnimationVector α) (object : Interactive α) :
    Option (AnimationVector α × Interactive α) :=
  let frame := nextFrame self.frame self.length
  match easeFunctions M self.ease with
  | none => none
  | some f =>
    let t := f (frame / self.length)
    let offset := lerp_vector self.start self.end_ t
    match object.setVField self.value offset with
    | none => none
    | some object1 =>
      some ({ self with frame := frame, t := t, offset := some offset }, object1)

/-- Method `AnimationVector.stop()`. -/
def AnimationVector.stop (self : AnimationVector α) : AnimationVector α :=
  { self with frame := self.length }

/-- Method `AnimationVector.reset()`. -/
def AnimationVector.reset (self : AnimationVector α) : AnimationVector α :=
  { self with frame := 0 }

/-! ## UI/user_interface.js: Panel, Label, Button -/

/-- Class `Color` of `color/color.js` (data only). -/
structure Color (α : Type) where
  r : α
  g : α
  b : α
  a : α
deriving DecidableEq

/-- The call `new Color()`. -/
def Color.new : Color α :=
  { r := 0, g := 0, b := 0, a := 1 }

/-- Class `Label`. A colour field is `none` when it holds `undefined`. -/
structure Label (α : Type) where
  text : String
  position : vector α
  fill : Option (Color α)
  stroke : Option (Color α)
  lineWidth : α
  borderWidth : α
  borderColor : Option (Color α)
  textAlign : String
  textBaseline : String
deriving DecidableEq

/-- Constructor of `Label`. -/
def Label.new (text text_align text_baseline : String) (position : vector α)
    (fill stroke : Option (Color α)) (lineWidth borderWidth : α)
    (borderColor : Option (Color α)) : Label α :=
  { text := text, position := position, fill := fill, stroke := stroke, lineWidth := lineWidth,
    borderWidth := borderWidth, borderColor := borderColor, textAlign := text_align,
    textBaseline := text_baseline }

/-- The call `new Label()`: every parameter takes its default. The defaults
`palette.white` and `palette.transparent` read a property that the array
`palette` does not have, so the three colours are `undefined`. -/
def Label.default : Label α :=
  Label.new "No Text" "left" "top" { x := 0, y := 0 } none none 0 0 none

/-- Method `Label.update()`: an empty body. -/
def Label.update (self : Label α) : Label α :=
  self

/-- Class `Panel`, which extends `Interactive`. A child is a panel (a button is
a panel) or a label. -/
structure Panel (α : Type) extends Interactive α where
  fill : Color α
  stroke : Color α
  lineWidth : α
  borderRadius : α
  children : List (Panel α ⊕ Label α)
  animations : List (AnimationVector α)

/-- Constructor of `Panel`. -/
def Panel.new (position size : vector α) (fill stroke : Color α) (lineWidth borderRadius : α)
    (children : List (Panel α ⊕ Label α)) (grab_enabled : Bool) : Panel α :=
  { toInteractive := Interactive.new position size grab_enabled,
    fill := fill, stroke := stroke, lineWidth := lineWidth, borderRadius := borderRadius,
    children := children, animations := [] }

/-- Constructor of `Button`, a class that extends `Panel`: it passes its
arguments on to the constructor of `Panel`, with the children `[new Label()]`
and `grab_enabled = false`. The parameter `text` is not used. -/
def Button.new (_text : String) (position size : vector α) (fill stroke : Color α)
    (lineWidth borderRadius : α) : Panel α :=
  Panel.new position size fill stroke lineWidth borderRadius [Sum.inr Label.default] false

/-- Method `move(start, end, time, ease)`. -/
def Panel.move (self : Panel α) (start end_ : vector α) (time : α) (ease : String) : Panel α :=
  { self with animations := self.animations ++ [AnimationVector.new "position" start end_ time ease] }

/-- Method `scale(size, time, ease)`. -/
def Panel.scale (self : Panel α) (size : vector α) (time : α) (ease : String) : Panel α :=
  { self with
    animations := self.animations ++ [AnimationVector.new "size" self.size.copy size time ease] }

/-- Method `shift(x, time, ease)`. -/
def Panel.shift (self : Panel α) (x : vector α) (time : α) (ease : String) : Panel α :=
  { self with
    animations := self.animations ++
      [AnimationVector.new "position" self.position.copy (self.position.copy.addV x) time ease] }

/-- The statement `this.animations.forEach(...)` of `Panel.update()`.
`forEachAnimation M n k (self, animations)` runs the `n` iterations that remain
when the index is `k`. `forEach` fixes the number of iterations when it starts
and skips an index that is no longer in the array. The callback updates the
animation at index `k` with the panel as target and, when it is finished,
removes it: `indexOf(animation)` is `k`, the array holding each animation
object once. -/
def Panel.forEachAnimation (M : JSMath α) :
    Nat → Nat → Interactive α × List (AnimationVector α) →
      Option (Interactive α × List (AnimationVector α))
  | 0, _, s => some s
  | n + 1, k, (self, animations) =>
    match animations[k]? with
    | none => Panel.forEachAnimation M n (k + 1) (self, animations)
    | some animation =>
      match animation.update M self with
      | none => none
      | some (animation1, self1) =>
        let animations1 := animations.set k animation1
        if animation1.frame ≥ animation1.length then
          Panel.forEachAnimation M n (k + 1) (self1, animations1.eraseIdx k)
        else
          Panel.forEachAnimation M n (k + 1) (self1, animations1)

mutual
/-- Method `Panel.update()`: the animations, then the children, then
`mouse_check()`. The result is the panel after the call; the callback that
`mouse_check()` invokes is the one given by `Interactive.mouse_check`. -/
def Panel.update (M : JSMath α) (u : UserInput α) : Panel α → Option (Panel α)
  | ⟨toInteractive, fill, stroke, lineWidth, borderRadius, children, animations⟩ =>
    match Panel.forEachAnimation M animations.length 0 (toInteractive, animations) with
    | none => none
    | some (self1, animations1) =>
      match Panel.updateChildren M u children with
      | none => none
      | some children1 =>
        some ⟨(self1.mouse_check u).1, fill, stroke, lineWidth, borderRadius, children1,
          animations1⟩
/-- The call `child.update()` on one child. -/
def Panel.updateChild (M : JSMath α) (u : UserInput α) :
    Panel α ⊕ Label α → Option (Panel α ⊕ Label α)
  | Sum.inl p => (Panel.update M u p).map Sum.inl
  | Sum.inr l => some (Sum.inr l.update)
/-- The statement `this.children.forEach((child) => child.update())`. -/
def Panel.updateChildren (M : JSMath α) (u : UserInput α) :
    List (Panel α ⊕ Label α) → Option (List (Panel α ⊕ Label α))
  | [] => some []
  | child :: rest =>
    match Panel.updateChild M u child with
    | none => none
    | some child1 =>
      match Panel.updateChildren M u rest with
      | none => none
      | some rest1 => some (child1 :: rest1)
end

/-! ## UI/user_interface.js: the state left by a call that throws

The same methods once more, keeping what a call has written when it throws:
each function returns the state after the call and whether the call returned
(`true`) or threw (`false`). -/

/-- Method `AnimationVector.update(object)`: the animation and the target
after the call, and whether it returned. When `easeFunctions[this.ease]` is not
a function the call throws after the frame counter was written; when
`object[this.value]` has no method `setV` it throws after `t` and `offset`
were written. -/
def AnimationVector.updateRun (M : JSMath α) (self : AnimationVector α)
    (object : Interactive α) : (AnimationVector α × Interactive α) × Bool :=
  let frame := nextFrame self.frame self.length
  match easeFunctions M self.ease with
  | none => (({ self with frame := frame }, object), false)
  | some f =>
    let t := f (frame / self.length)
    let offset := lerp_vector self.start self.end_ t
    match object.setVField self.value offset with
    | none => (({ self with frame := frame, t := t, offset := some offset }, object), false)
    | some object1 =>
      (({ self with frame := frame, t := t, offset := some offset }, object1), true)

/-- The statement `this.animations.forEach(...)` of `Panel.update()`, as in
`Panel.forEachAnimation`: when the callback throws, the loop stops and the
animation stays in the array. -/
def Panel.forEachAnimationRun (M : JSMath α) :
    Nat → Nat → Interactive α × List (AnimationVector α) →
      (Interactive α × List (AnimationVector α)) × Bool
  | 0, _, s => (s, true)
  | n + 1, k, (self, animations) =>
    match animations[k]? with
    | none => Panel.forEachAnimationRun M n (k + 1) (self, animations)
    | some animation =>
      match animation.updateRun M self with
      | ((animation1, self1), false) => ((self1, animations.set k animation1), false)
      | ((animation1, self1), true) =>
        let animations1 := animations.set k animation1
        if animation1.frame ≥ animation1.length then
          Panel.forEachAnimationRun M n (k + 1) (self1, animations1.eraseIdx k)
        else
          Panel.forEachAnimationRun M n (k + 1) (self1, animations1)

mutual
/-- Method `Panel.update()`: the panel after the call, and whether the call
returned. When the animations throw, the children and `mouse_check()` are not
reached; when a child throws, `mouse_check()` is not reached. -/
def Panel.updateRun (M : JSMath α) (u : UserInput α) : Panel α → Panel α × Bool
  | ⟨toInteractive, fill, stroke, lineWidth, borderRadius, children, animations⟩ =>
    match Panel.forEachAnimationRun M animations.length 0 (toInteractive, animations) with
    | ((self1, animations1), false) =>
      (⟨self1, fill, stroke, lineWidth, borderRadius, children, animations1⟩, false)
    | ((self1, animations1), true) =>
      match Panel.updateChildrenRun M u children with
      | (children1, false) =>
        (⟨self1, fill, stroke, lineWidth, borderRadius, children1, animations1⟩, false)
      | (children1, true) =>
        (⟨(self1.mouse_check u).1, fill, stroke, lineWidth, borderRadius, children1,
          animations1⟩, true)
/-- The call `child.update()` on one child, and whether it returned. -/
def Panel.updateChildRun (M : JSMath α) (u : UserInput α) :
    Panel α ⊕ Label α → (Panel α ⊕ Label α) × Bool
  | Sum.inl p => (Sum.inl (Panel.updateRun M u p).1, (Panel.updateRun M u p).2)
  | Sum.inr l => (Sum.inr l.update, true)
/-- The statement `this.children.forEach((child) => child.update())`: the
children after it, and whether it returned; the loop stops at the first child
that throws. -/
def Panel.updateChildrenRun (M : JSMath α) (u : UserInput α) :
    List (Panel α ⊕ Label α) → List (Panel α ⊕ Label α) × Bool
  | [] => ([], true)
  | child :: rest =>
    match Panel.updateChildRun M u child with
    | (child1, false) => (child1 :: rest, false)
    | (child1, true) =>
      ((child1 :: (Panel.updateChildrenRun M u rest).1), (Panel.updateChildrenRun M u rest).2)
end

/-- One call of `update()` per frame, with the input of each frame, oldest
first, the caller going on after a call that throws: the panel after the
calls, and whether all of them returned. -/
def Panel.updatesRun (M : JSMath α) : List (UserInput α) → Panel α → Panel α × Bool
  | [], p => (p, true)
  | u :: rest, p =>
    ((Panel.updatesRun M rest (Panel.updateRun M u p).1).1,
      (Panel.updateRun M u p).2 && (Panel.updatesRun M rest (Panel.updateRun M u p).1).2)

/-! ## Vocabulary of the statements -/

/-- The inclusive box `[p, p + s]` contains the point `m`. -/
def inBox (m p s : vector α) : Prop :=
  p.x ≤ m.x ∧ m.x ≤ p.x + s.x ∧ p.y ≤ m.y ∧ m.y ≤ p.y + s.y

instance inBox.decidable (m p s : vector α) : Decidable (inBox m p s) := by
  unfold inBox
  infer_instance

/-- The input after a list of `mousemove` events, oldest first. -/
def mousemoves (moves : List (α × α)) (u : UserInput α) : UserInput α :=
  moves.foldl (fun s m => mousemove m.1 m.2 s) u

/-- The effect of a mutating call on the object behind `self` in the memory
`h`, where `out` is the memory after the call and the returned reference: the
receiver holds `result`; the returned reference was not in use in `h`, so it
is not the receiver, and the object behind it has the components of the
receiver; no other object of `h` has changed. -/
def Heap.Effect (h : Heap α) (self : Nat) (result : vector α) (out : Heap α × Nat) : Prop :=
  out.1.obj self = result ∧ out.1.obj out.2 = out.1.obj self ∧
  h.next ≤ out.2 ∧ out.2 < out.1.next ∧
  ∀ r, r < h.next → r ≠ self → out.1.obj r = h.obj r

/-- The names of the vector-valued fields of a widget. -/
def vectorFieldNames : List String :=
  ["position", "size", "grab_offset"]

/-- Every animation of the list can run: its easing name is registered and it
targets a vector-valued field. The animations queued by `move`, `scale` and
`shift` with a registered easing name are of this kind. -/
def animationsSound (animations : List (AnimationVector α)) : Prop :=
  ∀ a ∈ animations, a.ease ∈ easeNames ∧ a.value ∈ vectorFieldNames

mutual
/-- Every animation queued in the panel or in a panel below it can run. -/
def Panel.Sound : Panel α → Prop
  | ⟨_, _, _, _, _, children, animations⟩ =>
    animationsSound animations ∧ Panel.SoundChildren children
/-- Every animation queued in the child or in a panel below it can run. -/
def Panel.SoundChild : Panel α ⊕ Label α → Prop
  | Sum.inl p => Panel.Sound p
  | Sum.inr _ => True
/-- Every animation queued in the children or in a panel below them can run. -/
def Panel.SoundChildren : List (Panel α ⊕ Label α) → Prop
  | [] => True
  | child :: rest => Panel.SoundChild child ∧ Panel.SoundChildren rest
end

/-- One call of `update()` per frame, with the input of each frame, oldest
first; `none` when one of the calls throws. -/
def Panel.updates (M : JSMath α) : List (UserInput α) → Panel α → Option (Panel α)
  | [], p => some p
  | u :: rest, p =>
    match Panel.update M u p with
    | none => none
    | some p1 => Panel.updates M rest p1

/-- One step in the life of a widget: a step on the input, or a call of
`mouse_check()` on the widget. -/
inductive WidgetStep (α : Type) where
  | input (step : InputStep α)
  | mouse_check

/-- The widget and the input after one step. -/
def WidgetStep.run : WidgetStep α → Interactive α × UserInput α → Interactive α × UserInput α
  | WidgetStep.input step, (w, u) => (w, step.run u)
  | WidgetStep.mouse_check, (w, u) => ((w.mouse_check u).1, u)

/-- The widget and the input after a list of steps, oldest first. -/
def runWidgetSteps (steps : List (WidgetStep α)) (s : Interactive α × UserInput α) :
    Interactive α × UserInput α :=
  steps.foldl (fun s step => step.run s) s

/-! ## Concrete inputs -/

/-- A widget at `(0, 0)` of size `(100, 100)`, grab disabled. -/
def boxWidget : Interactive α :=
  Interactive.new { x := 0, y := 0 } { x := 100, y := 100 } false

/-- The input after the mouse moved to `(50, 50)` and the button went down. -/
def pressAt50 : UserInput ℚ :=
  mousedown (mousemove 50 50 user_input)

/-- A grab-enabled widget at `(0, 0)` of size `(50, 50)`. -/
def dragWidget : Interactive ℚ :=
  Interactive.new { x := 0, y := 0 } { x := 50, y := 50 } true

/-- The input after the mouse moved to `(10, 10)` and the button went down. -/
def pressAt10 : UserInput ℚ :=
  mousedown (mousemove 10 10 user_input)

/-- The input one frame later: `update_input()`, then the mouse moved to
`(30, 30)` with the button held. -/
def dragTo30 : UserInput ℚ :=
  mousemove 30 30 (update_input pressAt10)

/-- The `hover` flag of a child, when the child is a panel. -/
def childHover : Panel α ⊕ Label α → Option Bool
  | Sum.inl p => some p.hover
  | Sum.inr _ => none

/-- A child panel stored at the parent-relative position `(10, 10)`, of size
`(50, 50)`. -/
def innerPanel : Panel α :=
  Panel.new { x := 10, y := 10 } { x := 50, y := 50 } Color.new Color.new 0 10 [] false

/-- A panel at `(100, 100)` of size `(200, 200)` whose only child is
`innerPanel`. -/
def outerPanel : Panel α :=
  Panel.new { x := 100, y := 100 } { x := 200, y := 200 } Color.new Color.new 0 10
    [Sum.inl innerPanel] false

/-- The animation left by an `update` that lands on frame `fr` with the easing
function `f`. -/
def AnimationValue.atFrame (self : AnimationValue α) (f : α → α) (fr : α) : AnimationValue α :=
  { self with
    frame := fr
    t := f (fr / self.length)
    offset := some (lerp self.start self.end_ (f (fr / self.length))) }

/-- An object without fields. -/
def emptyObject : NumObject α :=
  fun _ => none

/-- The animation `new AnimationValue('x', 0, 10, 5)`, with the default easing. -/
def tenInFive : AnimationValue α :=
  AnimationValue.new "x" 0 10 5 "inOutSine"

/-- The animation `new AnimationValue('x', 0, 10, 5, 'outCubic')`. -/
def tenInFiveCubic : AnimationValue α :=
  AnimationValue.new "x" 0 10 5 "outCubic"

/-- The animation `new AnimationVector('position', (0,0), (10,10), 5)`, with
the default easing. -/
def slideInFive : AnimationVector α :=
  AnimationVector.new "position" { x := 0, y := 0 } { x := 10, y := 10 } 5 "inOutSine"

/-- A panel after `move((0,0), (10,10), 1)` and `move((0,0), (50,50), 5)`: two
queued animations, the first of one frame, the second of five. -/
def racePanel : Panel α :=
  (((Panel.new { x := 0, y := 0 } { x := 100, y := 100 } Color.new Color.new 0 10 [] false :
      Panel α).move
      { x := 0, y := 0 } { x := 10, y := 10 } 1 "inOutCubic").move
    { x := 0, y := 0 } { x := 50, y := 50 } 5 "inOutCubic")

/-- A panel after `move((0,0), (10,10), 1)` and `move((0,0), (50,50), 1)`, the
second animation then stopped with `stop()`. -/
def stalePanel : Panel α :=
  { (Panel.new { x := 0, y := 0 } { x := 100, y := 100 } Color.new Color.new 0 10 [] false :
      Panel α) with
    animations :=
      [AnimationVector.new "position" { x := 0, y := 0 } { x := 10, y := 10 } 1 "inOutCubic",
       (AnimationVector.new "position" ({ x := 0, y := 0 } : vector α) { x := 50, y := 50 } 1
          "inOutCubic").stop] }

/-- The input after the keys `a` and `b` went down, in this order. -/
def heldAB : UserInput ℚ :=
  runSteps [InputStep.keydown "a", InputStep.keydown "b"] user_input

/-- A memory with the vector `(3, 4)` behind reference `0` and the vector
`(1, 2)` behind reference `1`. -/
def twoVectors : Heap α :=
  { obj := fun r => if r = 0 then { x := 3, y := 4 } else { x := 1, y := 2 }, next := 2 }

/-- A panel at `(0, 0)` with grab disabled and no queued animation, whose only
child is a panel on which `move((0,0), (1,1), 1, 'linear')` was called:
`linear` is not a registered easing name. -/
def brokenChildPanel : Panel α :=
  Panel.new { x := 0, y := 0 } { x := 100, y := 100 } Color.new Color.new 0 10
    [Sum.inl ((Panel.new { x := 0, y := 0 } { x := 10, y := 10 } Color.new Color.new 0 10 []
      false : Panel α).move { x := 0, y := 0 } { x := 1, y := 1 } 1 "linear")] false

/-! ## Lemmas on vectors and on the input -/

theorem range_test_eq_true_iff (a lo hi : α) :
    (if a < lo then false else if a > hi then false else true) = true ↔ lo ≤ a ∧ a ≤ hi := by
  split_ifs with h1 h2
  · exact ⟨fun h => h.elim, fun h => absurd h1 (not_lt.2 h.1)⟩
  · exact ⟨fun h => h.elim, fun h => absurd h2 (not_lt.2 h.2)⟩
  · exact ⟨fun _ => ⟨not_lt.1 h1, not_lt.1 h2⟩, fun _ => rfl⟩

theorem within_range_eq_true_iff (v min max : vector α) :
    v.within_range min max = true ↔
      min.x ≤ v.x ∧ v.x ≤ max.x ∧ min.y ≤ v.y ∧ v.y ≤ max.y := by
  unfold vector.within_range
  rw [Bool.and_eq_true, range_test_eq_true_iff, range_test_eq_true_iff, and_assoc]

theorem within_range_box_iff (m p s : vector α) :
    m.within_range p (p.copy.addV s) = true ↔ inBox m p s := by
  rw [within_range_eq_true_iff]
  simp [inBox, vector.copy, vector.addV, vector.add]

theorem mousemoves_is_down {β : Type} (moves : List (β × β)) (u : UserInput β) :
    (mousemoves moves u).mouse.is_down = u.mouse.is_down := by
  induction moves generalizing u with
  | nil => rfl
  | cons m ms ih => simp only [mousemoves, List.foldl_cons] at ih ⊢; rw [ih]; rfl

theorem mousemoves_is_changed {β : Type} (moves : List (β × β)) (u : UserInput β) :
    (mousemoves moves u).mouse.is_changed = u.mouse.is_changed := by
  induction moves generalizing u with
  | nil => rfl
  | cons m ms ih => simp only [mousemoves, List.foldl_cons] at ih ⊢; rw [ih]; rfl

/-! ## Lemmas on `mouse_check` -/

theorem grab_click (s : Interactive α) (u : UserInput α) : (s.grab u).click = s.click := by
  dsimp only [Interactive.grab]
  split_ifs <;> rfl

theorem grab_hover (s : Interactive α) (u : UserInput α) : (s.grab u).hover = s.hover := by
  dsimp only [Interactive.grab]
  split_ifs <;> rfl

theorem mouse_check_hover (w : Interactive α) (u : UserInput α) :
    (w.mouse_check u).1.hover =
      (u.mouse.position.within_range w.position (w.position.copy.addV w.size)
        && !u.mouse.is_bizy) := by
  simp [Interactive.mouse_check, grab_hover, Interactive.recompute]

theorem mouse_check_click (w : Interactive α) (u : UserInput α) :
    (w.mouse_check u).1.click =
      ((w.mouse_check u).1.hover && u.mouse.is_down && u.mouse.is_changed) := by
  simp [Interactive.mouse_check, grab_hover, grab_click, Interactive.recompute]

/-! ## Claims on the interactive state machine -/

/-- C1: click is edge-triggered. When the box of a widget contains the mouse,
the input is not busy and the mouse flags `is_down` and `is_changed` are both
set (the state a `mousedown` event leaves), `mouse_check()` sets `click`.
After `update_input()`, followed by any number of `mousemove` events,
`mouse_check()` on any widget clears `click`, the button being held as before. -/
theorem click_edge_triggered (w : Interactive α) (u : UserInput α) :
    (inBox u.mouse.position w.position w.size → u.mouse.is_bizy = false →
      u.mouse.is_down = true → u.mouse.is_changed = true →
        (w.mouse_check u).1.click = true) ∧
    ((mousedown u).mouse.is_down = true ∧ (mousedown u).mouse.is_changed = true) ∧
    (∀ (w2 : Interactive α) (moves : List (α × α)),
      (w2.mouse_check (mousemoves moves (update_input u))).1.click = false ∧
      (mousemoves moves (update_input u)).mouse.is_down = u.mouse.is_down) := by
  refine ⟨?_, ⟨rfl, rfl⟩, ?_⟩
  · intro hbox hbusy hdown hchg
    rw [mouse_check_click, mouse_check_hover, (within_range_box_iff _ _ _).2 hbox, hbusy,
      hdown, hchg]
    rfl
  · intro w2 moves
    constructor
    · rw [mouse_check_click, mousemoves_is_changed]
      simp [update_input]
    · rw [mousemoves_is_down]
      rfl

/-- Witness of C1: a widget at `(0,0)` of size `(100,100)`, mouse pressed at
`(50,50)`: `click` on that frame, no `click` on the next one. -/
theorem click_edge_triggered_witness :
    ((boxWidget : Interactive ℚ).mouse_check pressAt50).1.click = true ∧
    (((boxWidget : Interactive ℚ).mouse_check pressAt50).1.mouse_check
      (update_input pressAt50)).1.click = false ∧
    (update_input pressAt50).mouse.is_down = true :=
  ⟨(click_edge_triggered boxWidget pressAt50).1
      (by norm_num [inBox, boxWidget, pressAt50, Interactive.new, mousedown, mousemove,
        vector.set]) rfl rfl rfl,
    ((click_edge_triggered boxWidget pressAt50).2.2 _ []).1,
    ((click_edge_triggered boxWidget pressAt50).2.2 boxWidget []).2⟩

/-- C2: drag follows the absolute mouse position. A grab-enabled widget that is
not grabbed, at position `p`, whose box contains the mouse position `m0`, is
checked on a fresh mouse-down frame (not busy) and checked again on any input
with the button down and the mouse at `m1`: its position is then
`m1 - (m0 - p)`. -/
theorem drag_absolute (w : Interactive α) (u0 u1 : UserInput α)
    (hgrab : w.grab_enabled = true) (hfree : w.grabbed = false)
    (hbox : inBox u0.mouse.position w.position w.size) (hbusy : u0.mouse.is_bizy = false)
    (hdown : u0.mouse.is_down = true) (hchg : u0.mouse.is_changed = true)
    (hheld : u1.mouse.is_down = true) :
    ((w.mouse_check u0).1.mouse_check u1).1.position =
      { x := u1.mouse.position.x - (u0.mouse.position.x - w.position.x),
        y := u1.mouse.position.y - (u0.mouse.position.y - w.position.y) } := by
  have hin := (within_range_box_iff _ _ _).2 hbox
  simp only [Interactive.mouse_check, Interactive.recompute, Interactive.grab, hgrab, hfree, hin,
    hbusy, hdown, hchg, hheld, Bool.not_false, Bool.not_true, Bool.and_self, if_true, if_false,
    Bool.false_eq_true, Bool.and_true, Bool.and_false]
  simp [vector.setV, vector.set, vector.subV, vector.sub, vector.copy]

/-- Witness of C2: `p = (0,0)`, `m0 = (10,10)`, `m1 = (30,30)` gives `(20,20)`. -/
theorem drag_absolute_witness :
    ((dragWidget.mouse_check pressAt10).1.mouse_check dragTo30).1.position =
      { x := 20, y := 20 } := by
  have h := drag_absolute dragWidget pressAt10 dragTo30 rfl rfl
    (by norm_num [inBox, dragWidget, pressAt10, Interactive.new, mousedown, mousemove,
      vector.set]) rfl rfl rfl rfl
  rw [h]
  norm_num [dragWidget, pressAt10, dragTo30, Interactive.new, mousedown, mousemove,
    update_input, vector.set]

/-- C3: one `mouse_check()` invokes exactly one callback, once: `click_func`
when `click` is set after the recomputation, otherwise `hover_func` when
`hover` is set, otherwise `idle_func`. -/
theorem dispatch_exactly_one (w : Interactive α) (u : UserInput α) :
    (w.mouse_check u).2 =
      [if (w.mouse_check u).1.click = true then Callback.click_func
       else if (w.mouse_check u).1.hover = true then Callback.hover_func
       else Callback.idle_func] ∧
    (w.mouse_check u).2.length = 1 := by
  have h : (w.mouse_check u).2 = (w.mouse_check u).1.dispatch := rfl
  rw [h]
  unfold Interactive.dispatch
  split_ifs <;> exact ⟨rfl, rfl⟩

/-- C4: when the busy flag of the input is set, `mouse_check()` leaves `hover`
and `click` cleared on every widget, for every mouse position and button
state, and the callback it invokes is `idle_func`. -/
theorem busy_suppresses (w : Interactive α) (u : UserInput α) (hbusy : u.mouse.is_bizy = true) :
    (w.mouse_check u).1.hover = false ∧ (w.mouse_check u).1.click = false ∧
    (w.mouse_check u).2 = [Callback.idle_func] := by
  have hh : (w.mouse_check u).1.hover = false := by
    rw [mouse_check_hover, hbusy]; simp
  have hc : (w.mouse_check u).1.click = false := by
    rw [mouse_check_click, hh]; rfl
  refine ⟨hh, hc, ?_⟩
  have h : (w.mouse_check u).2 = (w.mouse_check u).1.dispatch := rfl
  rw [h]
  unfold Interactive.dispatch
  rw [hh, hc]
  rfl

/-- Witness of C4: the pressed mouse inside the box of a widget, with the busy
flag set. -/
theorem busy_suppresses_witness :
    ((boxWidget : Interactive ℚ).mouse_check
      { pressAt50 with mouse := { pressAt50.mouse with is_bizy := true } }).1.hover = false ∧
    ((boxWidget : Interactive ℚ).mouse_check
      { pressAt50 with mouse := { pressAt50.mouse with is_bizy := true } }).1.click = false ∧
    ((boxWidget : Interactive ℚ).mouse_check
      { pressAt50 with mouse := { pressAt50.mouse with is_bizy := true } }).2
        = [Callback.idle_func] :=
  busy_suppresses boxWidget _ rfl

/-! ## Claims on `Panel.update()` -/

/-- C5, the code at a failing input: the parent is at `p = (100,100)` and the
child is stored at `c = (10,10)` with size `s = (50,50)`. With the mouse at
`m = (120,120)` the point `m - p` lies in `[c, c + s]` and the child is left
with `hover = false`; with the mouse at `m = (20,20)` the point `m - p` lies
outside `[c, c + s]` and the child is left with `hover = true`: the child is
tested against the untranslated mouse position. -/
theorem child_hit_test_untranslated :
    (inBox (({ x := 120, y := 120 } : vector ℝ).copy.subV (outerPanel : Panel ℝ).position)
        (innerPanel : Panel ℝ).position (innerPanel : Panel ℝ).size ∧
      (Panel.update realMath (mousemove 120 120 user_input) outerPanel).map
        (fun p => p.children.map childHover) = some [some false]) ∧
    (¬ inBox (({ x := 20, y := 20 } : vector ℝ).copy.subV (outerPanel : Panel ℝ).position)
        (innerPanel : Panel ℝ).position (innerPanel : Panel ℝ).size ∧
      (Panel.update realMath (mousemove 20 20 user_input) outerPanel).map
        (fun p => p.children.map childHover) = some [some true]) := by
  refine ⟨⟨?_, ?_⟩, ?_, ?_⟩
  · norm_num [inBox, outerPanel, innerPanel, Panel.new, Interactive.new, vector.copy,
      vector.subV, vector.sub, vector.set]
  · norm_num [outerPanel, innerPanel, Panel.new, Interactive.new, Panel.update,
      Panel.updateChildren, Panel.updateChild, Panel.forEachAnimation, childHover,
      mouse_check_hover, mousemove, user_input, vector.set, vector.within_range, vector.copy,
      vector.addV, vector.add]
  · norm_num [inBox, outerPanel, innerPanel, Panel.new, Interactive.new, vector.copy,
      vector.subV, vector.sub, vector.set]
  · norm_num [outerPanel, innerPanel, Panel.new, Interactive.new, Panel.update,
      Panel.updateChildren, Panel.updateChild, Panel.forEachAnimation, childHover,
      mouse_check_hover, mousemove, user_input, vector.set, vector.within_range, vector.copy,
      vector.addV, vector.add]

/-! ## Lemmas on easing and on `AnimationValue` -/

theorem easeFunctions_of_mem (M : JSMath α) (name : String) (h : name ∈ easeNames) :
    ∃ f, easeFunctions M name = some f := by
  simp only [easeNames, List.mem_cons, List.mem_singleton, List.mem_nil_iff, or_false] at h
  rcases h with h | h | h | h <;> subst h <;> simp [easeFunctions]

theorem ease_one (name : String) (f : ℝ → ℝ) (h : easeFunctions realMath name = some f) :
    f 1 = 1 := by
  unfold easeFunctions at h
  split_ifs at h <;> simp only [Option.some.injEq] at h <;> subst h
  · simp [easeInSine, realMath]
  · simp [easeInOutSine, realMath]
  · simp [easeOutCubic]
  · norm_num [easeInOutCubic]

theorem easeFunctions_inOutCubic (M : JSMath α) :
    easeFunctions M "inOutCubic" = some easeInOutCubic := by
  simp [easeFunctions]

theorem easeInOutCubic_one : easeInOutCubic (1 : α) = 1 := by
  norm_num [easeInOutCubic]

theorem nextFrame_eq_min (frame length : α) : nextFrame frame length = min (frame + 1) length := by
  unfold nextFrame
  split_ifs with h
  · exact (min_eq_right (le_of_lt h)).symm
  · exact (min_eq_left (not_lt.1 h)).symm

theorem animationValue_update_eq (M : JSMath α) (a : AnimationValue α) (obj : NumObject α)
    (f : α → α) (h : easeFunctions M a.ease = some f) :
    a.update M obj = some (a.atFrame f (nextFrame a.frame a.length),
      obj.assign a.value (lerp a.start a.end_ (f (nextFrame a.frame a.length / a.length)))) := by
  simp [AnimationValue.update, h, AnimationValue.atFrame]

theorem min_succ_step (x l : α) (k : ℕ) :
    min (min (x + 1) l + ((k + 1 : ℕ) : α)) l = min (x + ((k + 1 + 1 : ℕ) : α)) l := by
  have hk : (0 : α) ≤ (k : α) := Nat.cast_nonneg k
  push_cast
  rcases le_total (x + 1) l with h | h
  · rw [min_eq_left h]; ring_nf
  · rw [min_eq_right h, min_eq_right (by linarith), min_eq_right (by linarith)]

theorem animationValue_updateN_succ (M : JSMath α) (f : α → α) (k : ℕ) :
    ∀ (a : AnimationValue α) (obj : NumObject α), easeFunctions M a.ease = some f →
      ∃ obj1, a.updateN M (k + 1) obj =
          some (a.atFrame f (min (a.frame + ((k + 1 : ℕ) : α)) a.length), obj1) ∧
        obj1 a.value =
          some (lerp a.start a.end_
            (f (min (a.frame + ((k + 1 : ℕ) : α)) a.length / a.length))) := by
  induction k with
  | zero =>
    intro a obj h
    refine ⟨obj.assign a.value
      (lerp a.start a.end_ (f (nextFrame a.frame a.length / a.length))), ?_, ?_⟩
    · simp only [AnimationValue.updateN, animationValue_update_eq M a obj f h]
      rw [nextFrame_eq_min]
      simp
    · rw [nextFrame_eq_min]
      simp [NumObject.assign]
  | succ k ih =>
    intro a obj h
    have h1 : easeFunctions M (a.atFrame f (nextFrame a.frame a.length)).ease = some f := h
    obtain ⟨obj1, hrun, hval⟩ := ih (a.atFrame f (nextFrame a.frame a.length)) _ h1
    refine ⟨obj1, ?_, ?_⟩
    · rw [AnimationValue.updateN, animationValue_update_eq M a obj f h]
      simp only []
      rw [hrun]
      simp only [AnimationValue.atFrame, nextFrame_eq_min, min_succ_step]
    · have hv : (a.atFrame f (nextFrame a.frame a.length)).value = a.value := rfl
      rw [hv] at hval
      rw [hval]
      simp only [AnimationValue.atFrame, nextFrame_eq_min, min_succ_step]

theorem setVField_of_mem {β : Type} (w : Interactive β) (name : String) (v : vector β)
    (h : name ∈ vectorFieldNames) : ∃ w1, w.setVField name v = some w1 := by
  simp only [vectorFieldNames, List.mem_cons, List.mem_singleton, List.mem_nil_iff,
    or_false] at h
  rcases h with h | h | h <;> subst h <;> simp [Interactive.setVField]

theorem animationVector_update_eq (M : JSMath α) (a : AnimationVector α) (w : Interactive α)
    (f : α → α) (h : easeFunctions M a.ease = some f) (hv : a.value ∈ vectorFieldNames) :
    ∃ w1, w.setVField a.value
          (lerp_vector a.start a.end_ (f (nextFrame a.frame a.length / a.length))) = some w1 ∧
      a.update M w = some ({ a with
        frame := nextFrame a.frame a.length
        t := f (nextFrame a.frame a.length / a.length)
        offset := some (lerp_vector a.start a.end_
          (f (nextFrame a.frame a.length / a.length))) }, w1) := by
  obtain ⟨w1, hw⟩ := setVField_of_mem w a.value
    (lerp_vector a.start a.end_ (f (nextFrame a.frame a.length / a.length))) hv
  exact ⟨w1, hw, by simp [AnimationVector.update, h, hw]⟩

theorem frame_bounds (frame length : α) (hlen : 1 ≤ length) (h0 : 0 ≤ frame) :
    0 ≤ min (frame + 1) length ∧ min (frame + 1) length ≤ length ∧
    0 ≤ min (frame + 1) length / length ∧ min (frame + 1) length / length ≤ 1 := by
  have hpos : (0 : α) < length := lt_of_lt_of_le one_pos hlen
  have hnn : 0 ≤ min (frame + 1) length := le_min (by linarith) (le_of_lt hpos)
  have hle : min (frame + 1) length ≤ length := min_le_right _ _
  exact ⟨hnn, hle, div_nonneg hnn (le_of_lt hpos), (div_le_one hpos).2 hle⟩

/-! ## Claims on animations -/

/-- C6: an `AnimationValue` of duration at least `1` (any number, so every
whole number of frames `n ≥ 1`) that starts at frame `0`, with any start, any
end and any registered easing name, after `k` calls of `update(target)` with
`k` at least the duration: the target field holds `end` exactly, `frame` is the
duration, and one more `update(target)` changes neither the animation nor the
target. Exact real arithmetic. -/
theorem animation_value_reaches_end (a : AnimationValue ℝ) (obj : NumObject ℝ) (k : ℕ)
    (hlen : 1 ≤ a.length) (hframe : a.frame = 0) (hease : a.ease ∈ easeNames)
    (hk : a.length ≤ (k : ℝ)) :
    ∃ a1 obj1, a.updateN realMath k obj = some (a1, obj1) ∧
      obj1 a.value = some a.end_ ∧ a1.frame = a.length ∧
      a1.update realMath obj1 = some (a1, obj1) := by
  obtain ⟨f, hf⟩ := easeFunctions_of_mem realMath a.ease hease
  have hf1 : f 1 = 1 := ease_one a.ease f hf
  have hne : a.length ≠ 0 := by linarith
  cases k with
  | zero => exact absurd hk (by push_cast; linarith)
  | succ j =>
    obtain ⟨obj1, hrun, hval⟩ := animationValue_updateN_succ realMath f j a obj hf
    have hmin : min (a.frame + ((j + 1 : ℕ) : ℝ)) a.length = a.length := by
      rw [hframe, zero_add]; exact min_eq_right hk
    rw [hmin] at hrun hval
    rw [div_self hne, hf1] at hval
    have hend : lerp a.start a.end_ 1 = a.end_ := by unfold lerp; ring
    rw [hend] at hval
    refine ⟨_, obj1, hrun, hval, rfl, ?_⟩
    have hf2 : easeFunctions realMath (a.atFrame f a.length).ease = some f := hf
    rw [animationValue_update_eq realMath _ obj1 f hf2]
    have hnext : nextFrame (a.atFrame f a.length).frame (a.atFrame f a.length).length
        = a.length := by
      rw [nextFrame_eq_min]; exact min_eq_right (by simp [AnimationValue.atFrame])
    rw [hnext]
    have hobj : obj1.assign (a.atFrame f a.length).value
        (lerp (a.atFrame f a.length).start (a.atFrame f a.length).end_
          (f (a.length / (a.atFrame f a.length).length))) = obj1 := by
      funext key
      simp only [NumObject.assign, AnimationValue.atFrame, div_self hne, hf1, hend]
      split_ifs with hkey
      · rw [hkey, hval]
      · rfl
    rw [hobj]
    rfl

/-- Witness of C6: start `0`, end `10`, duration `5`: the field `x` holds `10`
after the fifth call and after the sixth. -/
theorem animation_value_reaches_end_witness :
    (∃ a1 obj1, (tenInFive : AnimationValue ℝ).updateN realMath 5 emptyObject = some (a1, obj1) ∧
      obj1 "x" = some 10 ∧ a1.frame = 5 ∧ a1.update realMath obj1 = some (a1, obj1)) ∧
    (∃ a1 obj1, (tenInFive : AnimationValue ℝ).updateN realMath 6 emptyObject = some (a1, obj1) ∧
      obj1 "x" = some 10 ∧ a1.frame = 5 ∧ a1.update realMath obj1 = some (a1, obj1)) :=
  ⟨animation_value_reaches_end tenInFive emptyObject 5
      (by norm_num [tenInFive, AnimationValue.new]) rfl
      (by simp [tenInFive, AnimationValue.new, easeNames])
      (by norm_num [tenInFive, AnimationValue.new]),
    animation_value_reaches_end tenInFive emptyObject 6
      (by norm_num [tenInFive, AnimationValue.new]) rfl
      (by simp [tenInFive, AnimationValue.new, easeNames])
      (by norm_num [tenInFive, AnimationValue.new])⟩

/-- C7: the frame counter. For an `AnimationValue` and for an `AnimationVector`
(on a vector-valued field of its target) with duration at least `1`,
`0 ≤ frame ≤ duration` and a registered easing name: `update()` returns, it
sets `frame` to `min (frame + 1) duration`, the bounds `0 ≤ frame ≤ duration`
hold again after `update()`, after `stop()` and after `reset()`, and the
argument `frame / duration` on which `update()` evaluates the easing function
(the result is stored in `t`) lies in `[0, 1]`. -/
theorem frame_counter_invariant (M : JSMath α) :
    (∀ (a : AnimationValue α) (obj : NumObject α),
      1 ≤ a.length → 0 ≤ a.frame → a.frame ≤ a.length → a.ease ∈ easeNames →
      (∃ f a1 obj1, easeFunctions M a.ease = some f ∧ a.update M obj = some (a1, obj1) ∧
        a1.length = a.length ∧ a1.frame = min (a.frame + 1) a.length ∧
        0 ≤ a1.frame ∧ a1.frame ≤ a1.length ∧
        a1.t = f (a1.frame / a1.length) ∧
        0 ≤ a1.frame / a1.length ∧ a1.frame / a1.length ≤ 1) ∧
      (a.stop.length = a.length ∧ 0 ≤ a.stop.frame ∧ a.stop.frame ≤ a.stop.length) ∧
      (a.reset.length = a.length ∧ 0 ≤ a.reset.frame ∧ a.reset.frame ≤ a.reset.length)) ∧
    (∀ (v : AnimationVector α) (w : Interactive α),
      1 ≤ v.length → 0 ≤ v.frame → v.frame ≤ v.length → v.ease ∈ easeNames →
      v.value ∈ vectorFieldNames →
      (∃ f v1 w1, easeFunctions M v.ease = some f ∧ v.update M w = some (v1, w1) ∧
        v1.length = v.length ∧ v1.frame = min (v.frame + 1) v.length ∧
        0 ≤ v1.frame ∧ v1.frame ≤ v1.length ∧
        v1.t = f (v1.frame / v1.length) ∧
        0 ≤ v1.frame / v1.length ∧ v1.frame / v1.length ≤ 1) ∧
      (v.stop.length = v.length ∧ 0 ≤ v.stop.frame ∧ v.stop.frame ≤ v.stop.length) ∧
      (v.reset.length = v.length ∧ 0 ≤ v.reset.frame ∧ v.reset.frame ≤ v.reset.length)) := by
  constructor
  · intro a obj hlen h0 h1 hease
    obtain ⟨f, hf⟩ := easeFunctions_of_mem M a.ease hease
    obtain ⟨b0, b1, b2, b3⟩ := frame_bounds a.frame a.length hlen h0
    refine ⟨⟨f, _, _, hf, animationValue_update_eq M a obj f hf, rfl, ?_, ?_, ?_, ?_, ?_, ?_⟩,
      ⟨rfl, ?_, ?_⟩, ⟨rfl, ?_, ?_⟩⟩
    · exact nextFrame_eq_min _ _
    · simpa [AnimationValue.atFrame, nextFrame_eq_min] using b0
    · simp [AnimationValue.atFrame, nextFrame_eq_min]
    · rfl
    · simpa [AnimationValue.atFrame, nextFrame_eq_min] using b2
    · simpa [AnimationValue.atFrame, nextFrame_eq_min] using b3
    · exact le_trans h0 h1
    · exact le_refl _
    · exact le_refl _
    · exact le_trans zero_le_one hlen
  · intro v w hlen h0 h1 hease hfield
    obtain ⟨f, hf⟩ := easeFunctions_of_mem M v.ease hease
    obtain ⟨b0, b1, b2, b3⟩ := frame_bounds v.frame v.length hlen h0
    obtain ⟨w1, _, hupd⟩ := animationVector_update_eq M v w f hf hfield
    refine ⟨⟨f, _, w1, hf, hupd, rfl, ?_, ?_, ?_, ?_, ?_, ?_⟩, ⟨rfl, ?_, ?_⟩, ⟨rfl, ?_, ?_⟩⟩
    · exact nextFrame_eq_min _ _
    · simpa [nextFrame_eq_min] using b0
    · simp [nextFrame_eq_min]
    · rfl
    · simpa [nextFrame_eq_min] using b2
    · simpa [nextFrame_eq_min] using b3
    · exact le_trans h0 h1
    · exact le_refl _
    · exact le_refl _
    · exact le_trans zero_le_one hlen

/-- Witness of C7: the animations `tenInFive` and `slideInFive` at frame `0`,
over the reals. -/
theorem frame_counter_invariant_witness :
    (∃ f a1 obj1, easeFunctions realMath (tenInFive : AnimationValue ℝ).ease = some f ∧
        (tenInFive : AnimationValue ℝ).update realMath emptyObject = some (a1, obj1) ∧
        a1.length = 5 ∧ a1.frame = min (0 + 1) 5 ∧
        0 ≤ a1.frame ∧ a1.frame ≤ a1.length ∧
        a1.t = f (a1.frame / a1.length) ∧
        0 ≤ a1.frame / a1.length ∧ a1.frame / a1.length ≤ 1) ∧
    (∃ f v1 w1, easeFunctions realMath (slideInFive : AnimationVector ℝ).ease = some f ∧
        (slideInFive : AnimationVector ℝ).update realMath boxWidget = some (v1, w1) ∧
        v1.length = 5 ∧ v1.frame = min (0 + 1) 5 ∧
        0 ≤ v1.frame ∧ v1.frame ≤ v1.length ∧
        v1.t = f (v1.frame / v1.length) ∧
        0 ≤ v1.frame / v1.length ∧ v1.frame / v1.length ≤ 1) :=
  ⟨((frame_counter_invariant realMath).1 tenInFive emptyObject
      (by norm_num [tenInFive, AnimationValue.new]) (le_refl _)
      (by norm_num [tenInFive, AnimationValue.new])
      (by simp [tenInFive, AnimationValue.new, easeNames])).1,
    ((frame_counter_invariant realMath).2 slideInFive boxWidget
      (by norm_num [slideInFive, AnimationVector.new]) (le_refl _)
      (by norm_num [slideInFive, AnimationVector.new])
      (by simp [slideInFive, AnimationVector.new, easeNames])
      (by simp [slideInFive, AnimationVector.new, vectorFieldNames])).1⟩

/-- C8, the claim at a concrete input: the animation
`new AnimationValue('x', 0, 10, 5, 'outCubic')`, after `reset()` and one
`update(target)`, leaves `122/25` in the target field, not the start value
`0`. -/
theorem reset_then_update_not_start :
    ∃ a1 obj1,
      (tenInFiveCubic : AnimationValue ℝ).reset.update realMath emptyObject = some (a1, obj1) ∧
      obj1 (tenInFiveCubic : AnimationValue ℝ).value = some (122 / 25) ∧
      obj1 (tenInFiveCubic : AnimationValue ℝ).value ≠
        some (tenInFiveCubic : AnimationValue ℝ).start := by
  have hf : easeFunctions realMath (tenInFiveCubic : AnimationValue ℝ).reset.ease
      = some easeOutCubic := by
    simp [tenInFiveCubic, AnimationValue.new, AnimationValue.reset, easeFunctions]
  have hval : (NumObject.assign emptyObject (tenInFiveCubic : AnimationValue ℝ).reset.value
      (lerp (tenInFiveCubic : AnimationValue ℝ).reset.start
        (tenInFiveCubic : AnimationValue ℝ).reset.end_
        (easeOutCubic (nextFrame (tenInFiveCubic : AnimationValue ℝ).reset.frame
          (tenInFiveCubic : AnimationValue ℝ).reset.length /
            (tenInFiveCubic : AnimationValue ℝ).reset.length))))
      (tenInFiveCubic : AnimationValue ℝ).value = some (122 / 25) := by
    norm_num [NumObject.assign, tenInFiveCubic, AnimationValue.new, AnimationValue.reset,
      lerp, easeOutCubic, nextFrame]
  refine ⟨_, _, animationValue_update_eq realMath _ emptyObject easeOutCubic hf, hval, ?_⟩
  rw [hval]
  norm_num [tenInFiveCubic, AnimationValue.new]

/-- C8 as amended: after `reset()`, the next `update(target)` of an
`AnimationValue` with duration at least `1` and a registered easing `ease`
sets `frame` to `1` and leaves `start + ease(1 / duration) * (end - start)` in
the target field: the value of the first frame of the animation. -/
theorem reset_then_update_first_frame (M : JSMath α) (a : AnimationValue α) (obj : NumObject α)
    (hlen : 1 ≤ a.length) (hease : a.ease ∈ easeNames) :
    ∃ f a1 obj1, easeFunctions M a.ease = some f ∧
      a.reset.update M obj = some (a1, obj1) ∧ a1.frame = 1 ∧
      obj1 a.value = some (a.start + f (1 / a.length) * (a.end_ - a.start)) := by
  obtain ⟨f, hf⟩ := easeFunctions_of_mem M a.ease hease
  have hf2 : easeFunctions M a.reset.ease = some f := hf
  have hnext : nextFrame a.reset.frame a.reset.length = 1 := by
    rw [nextFrame_eq_min]
    simpa [AnimationValue.reset] using hlen
  refine ⟨f, _, _, hf, animationValue_update_eq M a.reset obj f hf2, ?_, ?_⟩
  · simpa [AnimationValue.atFrame] using hnext
  · rw [hnext]
    simp [NumObject.assign, AnimationValue.reset, lerp]

/-- Witness of C8 as amended: the animation `tenInFiveCubic` over the reals. -/
theorem reset_then_update_first_frame_witness :
    ∃ f a1 obj1, easeFunctions realMath (tenInFiveCubic : AnimationValue ℝ).ease = some f ∧
      (tenInFiveCubic : AnimationValue ℝ).reset.update realMath emptyObject = some (a1, obj1) ∧
      a1.frame = 1 ∧
      obj1 "x" = some (0 + f (1 / 5) * (10 - 0)) :=
  reset_then_update_first_frame realMath tenInFiveCubic emptyObject
    (by norm_num [tenInFiveCubic, AnimationValue.new])
    (by simp [tenInFiveCubic, AnimationValue.new, easeNames])

/-! ## Claims on the animation list of a panel -/

/-- C9, the code at a failing input: a panel with the two queued animations of
`racePanel`. One `update()` finishes and removes the first animation and never
calls `update` on the second: it is left in the list as constructed, at frame
`0` and not at frame `1`. -/
theorem update_skips_animation :
    (Panel.update realMath user_input (racePanel : Panel ℝ)).map (fun p => p.animations) =
      some [AnimationVector.new "position" ({ x := 0, y := 0 } : vector ℝ) { x := 50, y := 50 } 5
        "inOutCubic"] ∧
    (racePanel : Panel ℝ).animations =
      [AnimationVector.new "position" ({ x := 0, y := 0 } : vector ℝ) { x := 10, y := 10 } 1
         "inOutCubic",
       AnimationVector.new "position" ({ x := 0, y := 0 } : vector ℝ) { x := 50, y := 50 } 5
         "inOutCubic"] ∧
    (AnimationVector.new "position" ({ x := 0, y := 0 } : vector ℝ) { x := 50, y := 50 } 5
        "inOutCubic").frame = 0 := by
  refine ⟨?_, rfl, rfl⟩
  norm_num [racePanel, Panel.move, Panel.new, Interactive.new, Panel.update,
    Panel.updateChildren, Panel.forEachAnimation, AnimationVector.update, AnimationVector.new,
    nextFrame, easeFunctions_inOutCubic, easeInOutCubic_one, Interactive.setVField, lerp_vector,
    lerp, vector.setV, vector.set]

/-- C10, the code at a failing input: a panel with the two queued animations of
`stalePanel`, the second one already at `frame = length` after `stop()`. One
`update()` finishes and removes the first animation and skips the second,
which stays in the list with `frame ≥ length`. -/
theorem update_leaves_finished_animation :
    (Panel.update realMath user_input (stalePanel : Panel ℝ)).map (fun p => p.animations) =
      some [(AnimationVector.new "position" ({ x := 0, y := 0 } : vector ℝ) { x := 50, y := 50 }
        1 "inOutCubic").stop] ∧
    (AnimationVector.new "position" ({ x := 0, y := 0 } : vector ℝ) { x := 50, y := 50 } 1
        "inOutCubic").stop.frame ≥
      (AnimationVector.new "position" ({ x := 0, y := 0 } : vector ℝ) { x := 50, y := 50 } 1
        "inOutCubic").stop.length := by
  refine ⟨?_, le_refl _⟩
  norm_num [stalePanel, Panel.new, Interactive.new, Panel.update,
    Panel.updateChildren, Panel.forEachAnimation, AnimationVector.update, AnimationVector.new,
    AnimationVector.stop, nextFrame, easeFunctions_inOutCubic, easeInOutCubic_one,
    Interactive.setVField, lerp_vector, lerp, vector.setV, vector.set]

/-! ## Lemmas on the keyboard state -/

theorem arrayIndexOfFrom_eq_neg_one_iff (xs : List String) (key : String) (i : Nat) :
    arrayIndexOfFrom xs key i = -1 ↔ key ∉ xs := by
  induction xs generalizing i with
  | nil => simp [arrayIndexOfFrom]
  | cons x rest ih =>
    unfold arrayIndexOfFrom
    by_cases h : x = key
    · subst h
      simp only [if_true, List.mem_cons, true_or, not_true_eq_false, iff_false]
      omega
    · rw [if_neg h, ih]
      simp [List.mem_cons, Ne.symm h]

theorem splice1_sublist (xs : List String) (start : Int) : (splice1 xs start).Sublist xs := by
  unfold splice1
  exact List.eraseIdx_sublist _ _

theorem keydown_lastKeys_of_not_mem {β : Type} (key : String) (u : UserInput β)
    (h : key ∉ u.lastKeys) : (keydown key u).lastKeys = u.lastKeys ++ [key] := by
  have h1 : arrayIndexOf u.lastKeys key = -1 := (arrayIndexOfFrom_eq_neg_one_iff _ _ _).2 h
  have h2 : u.lastKeys.getLast? ≠ some key := by
    intro hl
    exact h (List.mem_of_getLast?_eq_some hl)
  simp [keydown, h1, h2]

theorem keydown_lastKeys_of_mem {β : Type} (key : String) (u : UserInput β)
    (h : key ∈ u.lastKeys) : (keydown key u).lastKeys = u.lastKeys := by
  have h1 : ¬ arrayIndexOf u.lastKeys key = -1 := fun hc =>
    (arrayIndexOfFrom_eq_neg_one_iff _ _ _).1 hc h
  simp [keydown, h1]

theorem get_sequence_lastKeys {β : Type} (sequence : String) (u : UserInput β) :
    (get_sequence sequence u).2.lastKeys = [] ∨
      (get_sequence sequence u).2.lastKeys = u.lastKeys := by
  unfold get_sequence
  split_ifs
  · exact Or.inl rfl
  · exact Or.inr rfl

theorem run_nodup {β : Type} (step : InputStep β) (u : UserInput β) (h : u.lastKeys.Nodup) :
    (step.run u).lastKeys.Nodup := by
  cases step with
  | keydown key =>
    by_cases hk : key ∈ u.lastKeys
    · simp only [InputStep.run]; rw [keydown_lastKeys_of_mem key u hk]; exact h
    · simp only [InputStep.run]; rw [keydown_lastKeys_of_not_mem key u hk]
      exact List.nodup_append.2 ⟨h, List.nodup_singleton _, by
        intro a ha hb
        rw [List.mem_singleton] at hb
        exact hk (hb ▸ ha)⟩
  | keyup key => exact (splice1_sublist _ _).nodup h
  | mousemove x y => exact h
  | mousedown => exact h
  | mouseup => exact h
  | update_input => exact h
  | clear_last_keys => exact List.nodup_nil
  | clear_keys => exact h
  | get_sequence sequence =>
    rcases get_sequence_lastKeys sequence u with h1 | h1
    · simp only [InputStep.run]; rw [h1]; exact List.nodup_nil
    · simp only [InputStep.run]; rw [h1]; exact h

theorem runSteps_nodup {β : Type} (steps : List (InputStep β)) (u : UserInput β)
    (h : u.lastKeys.Nodup) :
    (runSteps steps u).lastKeys.Nodup := by
  induction steps generalizing u with
  | nil => exact h
  | cons step rest ih => exact ih (step.run u) (run_nodup step u h)

theorem foldl_append_data (xs : List String) (acc : String) :
    (xs.foldl (fun result key => result ++ key) acc).data =
      acc.data ++ (xs.map String.data).flatten := by
  induction xs generalizing acc with
  | nil => simp
  | cons x rest ih => simp [ih, String.data_append, List.append_assoc]

theorem get_last_keys_data {β : Type} (u : UserInput β) :
    (get_last_keys u).data = (u.lastKeys.map String.data).flatten := by
  unfold get_last_keys
  rw [foldl_append_data]
  rfl

theorem stringIndexOfFrom_ge (needle hay : List Char) (i : Nat) :
    stringIndexOfFrom needle hay i = -1 ∨ (i : Int) ≤ stringIndexOfFrom needle hay i := by
  induction hay generalizing i with
  | nil =>
    unfold stringIndexOfFrom
    split_ifs
    · exact Or.inr (le_refl _)
    · exact Or.inl rfl
  | cons c rest ih =>
    unfold stringIndexOfFrom
    split_ifs
    · exact Or.inr (le_refl _)
    · rcases ih (i + 1) with h | h
      · exact Or.inl h
      · exact Or.inr (by push_cast at h; omega)

theorem stringIndexOfFrom_zero_iff (needle hay : List Char) :
    stringIndexOfFrom needle hay 0 = 0 ↔ ∃ rest, hay = needle ++ rest := by
  have hp : needle.isPrefixOf hay = true ↔ ∃ rest, hay = needle ++ rest := by
    rw [List.isPrefixOf_iff_prefix]
    exact ⟨fun ⟨t, ht⟩ => ⟨t, ht.symm⟩, fun ⟨t, ht⟩ => ⟨t, ht.symm⟩⟩
  rw [← hp]
  cases hay with
  | nil =>
    unfold stringIndexOfFrom
    split_ifs with h
    · simp [h]
    · simp [h]
  | cons c rest =>
    unfold stringIndexOfFrom
    split_ifs with h
    · simp [h]
    · have hge := stringIndexOfFrom_ge needle rest (0 + 1)
      constructor
      · intro h0
        rcases hge with h1 | h1
        · rw [h1] at h0; exact absurd h0 (by decide)
        · rw [h0] at h1; exact absurd h1 (by decide)
      · intro h1; exact absurd h1 h

theorem get_sequence_fst_iff {β : Type} (u : UserInput β) (target : String) :
    (get_sequence target u).1 = true ↔
      ∃ rest : List Char, (u.lastKeys.map String.data).flatten = target.data ++ rest := by
  rw [← get_last_keys_data, ← stringIndexOfFrom_zero_iff]
  unfold get_sequence stringIndexOf
  split_ifs with h
  · simp [h]
  · simp [h]

theorem run_lastKeys_nil {β : Type} (step : InputStep β) (u : UserInput β)
    (hstep : step.isKeydown = false) (h : u.lastKeys = []) : (step.run u).lastKeys = [] := by
  cases step with
  | keydown key => exact absurd hstep (by simp [InputStep.isKeydown])
  | keyup key => simp [InputStep.run, keyup, h, splice1]
  | mousemove x y => exact h
  | mousedown => exact h
  | mouseup => exact h
  | update_input => exact h
  | clear_last_keys => rfl
  | clear_keys => exact h
  | get_sequence sequence =>
    rcases get_sequence_lastKeys sequence u with h1 | h1
    · exact h1
    · simp only [InputStep.run]; rw [h1]; exact h

theorem runSteps_lastKeys_nil {β : Type} (steps : List (InputStep β)) (u : UserInput β)
    (hsteps : ∀ step ∈ steps, step.isKeydown = false) (h : u.lastKeys = []) :
    (runSteps steps u).lastKeys = [] := by
  induction steps generalizing u with
  | nil => exact h
  | cons step rest ih =>
    exact ih (step.run u) (fun s hs => hsteps s (List.mem_cons_of_mem _ hs))
      (run_lastKeys_nil step u (hsteps step (List.mem_cons_self _ _)) h)

/-! ## Claims on the keyboard state -/

/-- C11, the code at a failing input: the keys `a` and `b` go down,
`get_sequence('ab')` consumes them, the key `c` goes down, and the key `a`
goes up. Before the key-up the held-key sequence is `['c']`, which does not
contain `a`; after it the sequence is empty: the key `c`, still down, was
removed. -/
theorem keyup_removes_other_key :
    (runSteps [InputStep.keydown "a", InputStep.keydown "b", InputStep.get_sequence "ab",
        InputStep.keydown "c"] (user_input : UserInput ℚ)).lastKeys = ["c"] ∧
    (runSteps [InputStep.keydown "a", InputStep.keydown "b", InputStep.get_sequence "ab",
        InputStep.keydown "c", InputStep.keyup "a"] (user_input : UserInput ℚ)).lastKeys = [] ∧
    is_key_down "c" (runSteps [InputStep.keydown "a", InputStep.keydown "b",
        InputStep.get_sequence "ab", InputStep.keydown "c", InputStep.keyup "a"]
        (user_input : UserInput ℚ)) = some true := by
  decide

/-- C12: the held-key sequence has no duplicate. After any list of steps from
the initial state (key-down, key-up, mouse events, `update_input`,
`clear_last_keys`, `clear_keys`, `get_sequence`), every key name occurs at
most once in `lastKeys`; a key-down of `key` appends `key` at the end when it
is absent and leaves the sequence as it is when it is present. -/
theorem held_keys_no_duplicate (steps : List (InputStep α)) :
    (∀ key, (runSteps steps (user_input : UserInput α)).lastKeys.count key ≤ 1) ∧
    (∀ (u : UserInput α) (key : String),
      (key ∉ u.lastKeys → (keydown key u).lastKeys = u.lastKeys ++ [key]) ∧
      (key ∈ u.lastKeys → (keydown key u).lastKeys = u.lastKeys)) := by
  constructor
  · have h : (runSteps steps (user_input : UserInput α)).lastKeys.Nodup :=
      runSteps_nodup steps user_input List.nodup_nil
    exact fun key => List.nodup_iff_count_le_one.1 h key
  · exact fun u key => ⟨keydown_lastKeys_of_not_mem key u, keydown_lastKeys_of_mem key u⟩

/-- Witness of C12: `a` down twice, `b` down, `a` up, `a` down again. -/
theorem held_keys_no_duplicate_witness :
    (∀ key, (runSteps [InputStep.keydown "a", InputStep.keydown "a", InputStep.keydown "b",
        InputStep.keyup "a", InputStep.keydown "a"] (user_input : UserInput ℚ)).lastKeys.count key
          ≤ 1) ∧
    (keydown "a" (user_input : UserInput ℚ)).lastKeys = [] ++ ["a"] ∧
    (keydown "a" heldAB).lastKeys = heldAB.lastKeys :=
  ⟨(held_keys_no_duplicate _).1,
    ((held_keys_no_duplicate []).2 user_input "a").1 (by decide),
    ((held_keys_no_duplicate []).2 heldAB "a").2 (by decide)⟩

/-- C13: `get_sequence(target)` returns `true` exactly when the concatenation
of the held key names, in press order, starts with `target` (`get_last_keys()`
is that concatenation). When it returns `true` the held-key sequence is empty
afterwards, when it returns `false` the sequence is as before; the map `keys`
and the mouse state are as before in both cases. -/
theorem get_sequence_spec {β : Type} (u : UserInput β) (target : String) :
    (get_last_keys u).data = (u.lastKeys.map String.data).flatten ∧
    ((get_sequence target u).1 = true ↔
      ∃ rest : List Char, (u.lastKeys.map String.data).flatten = target.data ++ rest) ∧
    ((get_sequence target u).1 = true → (get_sequence target u).2.lastKeys = []) ∧
    ((get_sequence target u).1 = false → (get_sequence target u).2.lastKeys = u.lastKeys) ∧
    (get_sequence target u).2.keys = u.keys ∧
    (get_sequence target u).2.mouse = u.mouse := by
  refine ⟨get_last_keys_data u, get_sequence_fst_iff u target, ?_, ?_, ?_, ?_⟩ <;>
    unfold get_sequence <;> split_ifs <;> simp [clear_last_keys]

/-- Witness of C13: with `a` and `b` held, `get_sequence('ab')` returns `true`
and empties the sequence, `get_sequence('b')` returns `false` and keeps it. -/
theorem get_sequence_spec_witness :
    (get_sequence "ab" heldAB).1 = true ∧ (get_sequence "ab" heldAB).2.lastKeys = [] ∧
    (get_sequence "b" heldAB).1 = false ∧ (get_sequence "b" heldAB).2.lastKeys = ["a", "b"] :=
  ⟨(get_sequence_spec heldAB "ab").2.1.2 ⟨[], by decide⟩,
    (get_sequence_spec heldAB "ab").2.2.1 (by decide),
    by decide,
    (get_sequence_spec heldAB "b").2.2.2.1 (by decide)⟩

/-- C14: a matched sequence is consumed. For a non-empty `target`, when
`get_sequence(target)` returns `true`, a second `get_sequence(target)` returns
`false`, whatever steps other than key-down events happen in between. -/
theorem matched_sequence_consumed {β : Type} (u : UserInput β) (target : String)
    (steps : List (InputStep β)) (hne : target ≠ "")
    (hmatch : (get_sequence target u).1 = true)
    (hsteps : ∀ step ∈ steps, step.isKeydown = false) :
    (get_sequence target (runSteps steps (get_sequence target u).2)).1 = false := by
  have hnil : (get_sequence target u).2.lastKeys = [] := by
    revert hmatch
    unfold get_sequence
    split_ifs <;> simp [clear_last_keys]
  have hnil2 := runSteps_lastKeys_nil steps _ hsteps hnil
  cases hb : (get_sequence target (runSteps steps (get_sequence target u).2)).1 with
  | false => rfl
  | true =>
    obtain ⟨rest, hrest⟩ := (get_sequence_fst_iff _ target).1 hb
    rw [hnil2] at hrest
    simp only [List.map_nil, List.flatten_nil] at hrest
    have hdata : target.data = [] := (List.append_eq_nil.1 hrest.symm).1
    exact absurd (String.ext hdata) hne

/-- Witness of C14: key-down `a`, key-down `b`, `get_sequence('ab')` returns
`true`, then `get_sequence('ab')` returns `false`. -/
theorem matched_sequence_consumed_witness :
    (get_sequence "ab" heldAB).1 = true ∧
    (get_sequence "ab" (get_sequence "ab" heldAB).2).1 = false ∧
    (get_sequence "ab" (runSteps [InputStep.keyup "a", InputStep.update_input]
      (get_sequence "ab" heldAB).2)).1 = false :=
  ⟨by decide,
    matched_sequence_consumed heldAB "ab" [] (by decide) (by decide) (by simp),
    matched_sequence_consumed heldAB "ab" [InputStep.keyup "a", InputStep.update_input]
      (by decide) (by decide) (by simp [InputStep.isKeydown])⟩

/-- C15: `update_input()` only clears the `changed` flags. After the call
`mouse.is_changed` is `false` and `is_changed` is `false` for every recorded
key; the mouse position, `mouse.is_down`, `mouse.is_bizy`, the recorded keys
with their `is_down` flags, and the held-key sequence are as before; a second
call changes nothing. -/
theorem update_input_only_clears_changed {β : Type} (u : UserInput β) :
    (update_input u).mouse.is_changed = false ∧
    (∀ kv ∈ (update_input u).keys, kv.2.is_changed = false) ∧
    (∀ key, is_key_changed key (update_input u) = (is_key_changed key u).map (fun _ => false)) ∧
    (update_input u).mouse.position = u.mouse.position ∧
    (update_input u).mouse.is_down = u.mouse.is_down ∧
    (update_input u).mouse.is_bizy = u.mouse.is_bizy ∧
    (update_input u).keys.map (fun kv => (kv.1, kv.2.is_down)) =
      u.keys.map (fun kv => (kv.1, kv.2.is_down)) ∧
    (∀ key, is_key_down key (update_input u) = is_key_down key u) ∧
    (update_input u).lastKeys = u.lastKeys ∧
    update_input (update_input u) = update_input u := by
  have hread : ∀ (keys : List (String × KeyState)) (key : String),
      readKey (keys.map (fun kv => (kv.1, { kv.2 with is_changed := false }))) key =
        (readKey keys key).map (fun s => { s with is_changed := false }) := by
    intro keys key
    induction keys with
    | nil => rfl
    | cons kv rest ih =>
      obtain ⟨k, s⟩ := kv
      simp only [List.map_cons, readKey]
      split_ifs
      · rfl
      · exact ih
  refine ⟨rfl, ?_, ?_, rfl, rfl, rfl, ?_, ?_, rfl, ?_⟩
  · intro kv hkv
    simp only [update_input, List.mem_map] at hkv
    obtain ⟨kv0, _, rfl⟩ := hkv
    rfl
  · intro key
    simp only [is_key_changed, update_input, hread, Option.map_map]
    rfl
  · simp [update_input, List.map_map, Function.comp]
  · intro key
    simp only [is_key_down, update_input, hread, Option.map_map]
    rfl
  · simp [update_input, List.map_map, Function.comp]

/-- Witness of C15: the input after the keys `a` and `b` went down. -/
theorem update_input_only_clears_changed_witness :
    (is_key_changed "a" heldAB = some true ∧
      is_key_changed "a" (update_input heldAB) = some false) ∧
    (∀ kv ∈ (update_input heldAB).keys, kv.2.is_changed = false) ∧
    is_key_down "a" (update_input heldAB) = some true ∧
    (update_input heldAB).lastKeys = ["a", "b"] :=
  ⟨⟨by decide, by decide⟩,
    (update_input_only_clears_changed heldAB).2.1,
    by decide,
    (update_input_only_clears_changed heldAB).2.2.2.2.2.2.2.2.1⟩

/-! ## Lemmas on vector objects in memory -/

theorem effect_copy {β : Type} (h h1 : Heap β) (self : Nat) (result : vector β)
    (hself : self < h.next) (hnext : h.next ≤ h1.next) (hres : h1.obj self = result)
    (hrest : ∀ r, r < h.next → r ≠ self → h1.obj r = h.obj r) :
    h.Effect self result (h1.copy self) := by
  have hne : self ≠ h1.next := by omega
  refine ⟨?_, ?_, ?_, ?_, ?_⟩
  · simp [Heap.copy, Heap.new, hne, hres]
  · simp [Heap.copy, Heap.new, hne]
  · exact hnext
  · simp [Heap.copy, Heap.new]
  · intro r hr hrs
    have hr1 : r ≠ h1.next := by omega
    simp [Heap.copy, Heap.new, hr1, hrest r hr hrs]

theorem effect_then_copy {β : Type} (h : Heap β) (self : Nat) (result : vector β)
    (out : Heap β × Nat)
    (hself : self < h.next) (he : h.Effect self result out) :
    h.Effect self result (out.1.copy self) := by
  obtain ⟨h1, _, h3, h4, h5⟩ := he
  exact effect_copy h out.1 self result hself (by omega) h1 h5

theorem effect_set {β : Type} (h : Heap β) (self : Nat) (x y : β) (hself : self < h.next) :
    h.Effect self ((h.obj self).set x y) (h.set self x y) := by
  unfold Heap.set
  apply effect_copy h _ self _ hself
  · exact le_refl _
  · simp [Heap.setX, Heap.setY, vector.set]
  · intro r _ hrs
    simp [Heap.setX, Heap.setY, hrs]

theorem effect_add (h : Heap α) (self : Nat) (x y : α) (hself : self < h.next) :
    h.Effect self ((h.obj self).add x y) (h.add self x y) := by
  unfold Heap.add
  apply effect_copy h _ self _ hself
  · exact le_refl _
  · simp [Heap.setX, Heap.setY, vector.add]
  · intro r _ hrs
    simp [Heap.setX, Heap.setY, hrs]

theorem effect_scale (h : Heap α) (self : Nat) (x y : α) (hself : self < h.next) :
    h.Effect self ((h.obj self).scale x y) (h.scale self x y) := by
  unfold Heap.scale
  apply effect_copy h _ self _ hself
  · exact le_refl _
  · simp [Heap.setX, Heap.setY, vector.scale]
  · intro r _ hrs
    simp [Heap.setX, Heap.setY, hrs]

theorem effect_normalize (M : JSMath α) (h : Heap α) (self : Nat) (hself : self < h.next) :
    h.Effect self ((h.obj self).normalize M) (h.normalize M self) := by
  unfold Heap.normalize
  apply effect_copy h _ self _ hself
  · exact le_refl _
  · simp [Heap.setX, Heap.setY, vector.normalize]
  · intro r _ hrs
    simp [Heap.setX, Heap.setY, hrs]

theorem effect_setV {β : Type} (h : Heap β) (self v : Nat) (hself : self < h.next) :
    h.Effect self ((h.obj self).setV (h.obj v)) (h.setV self v) :=
  effect_then_copy h self _ _ hself (effect_set h self _ _ hself)

theorem effect_sub (h : Heap α) (self : Nat) (x y : α) (hself : self < h.next) :
    h.Effect self ((h.obj self).sub x y) (h.sub self x y) :=
  effect_then_copy h self _ _ hself (effect_set h self _ _ hself)

theorem effect_subV (h : Heap α) (self v : Nat) (hself : self < h.next) :
    h.Effect self ((h.obj self).subV (h.obj v)) (h.subV self v) :=
  effect_then_copy h self _ _ hself (effect_sub h self _ _ hself)

theorem effect_addV (h : Heap α) (self v : Nat) (hself : self < h.next) :
    h.Effect self ((h.obj self).addV (h.obj v)) (h.addV self v) :=
  effect_then_copy h self _ _ hself (effect_add h self _ _ hself)

theorem effect_scaleV (h : Heap α) (self v : Nat) (hself : self < h.next) :
    h.Effect self ((h.obj self).scaleV (h.obj v)) (h.scaleV self v) :=
  effect_then_copy h self _ _ hself (effect_scale h self _ _ hself)

theorem effect_clamp (h : Heap α) (self min max : Nat) (hself : self < h.next) :
    h.Effect self ((h.obj self).clamp (h.obj min) (h.obj max)) (h.clamp self min max) :=
  effect_then_copy h self _ _ hself (effect_set h self _ _ hself)

theorem effect_setByAngle (M : JSMath α) (h : Heap α) (self : Nat) (angle length : α)
    (hself : self < h.next) :
    h.Effect self ((h.obj self).setByAngle M angle length) (h.setByAngle M self angle length) :=
  effect_then_copy h self _ _ hself (effect_set h self _ _ hself)

theorem effect_rotate (M : JSMath α) (h : Heap α) (self : Nat) (angle : α)
    (hself : self < h.next) :
    h.Effect self ((h.obj self).rotate M angle) (h.rotate M self angle) :=
  effect_then_copy h self _ _ hself (effect_setByAngle M h self _ _ hself)

theorem effect_round {β : Type} (M : JSMath β) (h : Heap β) (self : Nat)
    (hself : self < h.next) :
    h.Effect self ((h.obj self).round M) (h.round M self) :=
  effect_then_copy h self _ _ hself (effect_set h self _ _ hself)

theorem effect_floor {β : Type} (M : JSMath β) (h : Heap β) (self : Nat)
    (hself : self < h.next) :
    h.Effect self ((h.obj self).floor M) (h.floor M self) :=
  effect_then_copy h self _ _ hself (effect_set h self _ _ hself)

theorem effect_celi {β : Type} (M : JSMath β) (h : Heap β) (self : Nat)
    (hself : self < h.next) :
    h.Effect self ((h.obj self).celi M) (h.celi M self) :=
  effect_then_copy h self _ _ hself (effect_set h self _ _ hself)

theorem effect_addOffsetByAngle (M : JSMath α) (h : Heap α) (self : Nat) (angle length : α)
    (hself : self < h.next) :
    h.Effect self ((h.obj self).addOffsetByAngle M angle length)
      (h.addOffsetByAngle M self angle length) := by
  have o2 : (h.copy self).2 = h.next := rfl
  have onext : (h.copy self).1.next = h.next + 1 := rfl
  have oself : (h.copy self).1.obj self = h.obj self := by
    have hne : self ≠ h.next := by omega
    simp [Heap.copy, Heap.new, hne]
  have onew : (h.copy self).1.obj h.next = h.obj self := by
    simp [Heap.copy, Heap.new]
  have orest : ∀ r, r < h.next → (h.copy self).1.obj r = h.obj r := by
    intro r hr
    have hne : r ≠ h.next := by omega
    simp [Heap.copy, Heap.new, hne]
  obtain ⟨a1, a2, a3, a4, a5⟩ :=
    effect_setByAngle M (h.copy self).1 self angle length (by rw [onext]; omega)
  obtain ⟨s1, s2, s3, s4, s5⟩ :=
    effect_addV ((h.copy self).1.setByAngle M self angle length).1 (h.copy self).2
      ((h.copy self).1.setByAngle M self angle length).2 (by rw [o2]; omega)
  obtain ⟨t1, t2, t3, t4, t5⟩ :=
    effect_setV (((h.copy self).1.setByAngle M self angle length).1.addV (h.copy self).2
      ((h.copy self).1.setByAngle M self angle length).2).1 self
      (((h.copy self).1.setByAngle M self angle length).1.addV (h.copy self).2
      ((h.copy self).1.setByAngle M self angle length).2).2 (by omega)
  simp only [o2] at s1 s2 s3 s4 s5 t1 t2 t3 t4 t5
  rw [onext] at a3 a5
  have hoff : ((h.copy self).1.setByAngle M self angle length).1.obj h.next = h.obj self := by
    rw [a5 h.next (by omega) (by omega), onew]
  unfold Heap.addOffsetByAngle
  simp only [o2]
  apply effect_copy h _ self _ hself
  · omega
  · rw [t1, s2, s1, hoff, a2, a1, oself]
    rfl
  · intro r hr hrs
    rw [t5 r (by omega) hrs, s5 r (by omega) (by omega), a5 r (by omega) hrs, orest r hr]

/-! ## Claims on vectors -/

/-- C16: the additive round trip. For vector objects `v` and `a` in memory
(the same object or two), the expression `v.copy().addV(a).subV(a)` returns a
vector with the components of `v`, in exact arithmetic, and leaves `v`, `a`
and every other object that was in memory as they were. -/
theorem additive_round_trip (h : Heap α) (v a : Nat) (hv : v < h.next) (ha : a < h.next) :
    (h.roundTrip v a).1.obj (h.roundTrip v a).2 = h.obj v ∧
    (h.roundTrip v a).1.obj v = h.obj v ∧
    (h.roundTrip v a).1.obj a = h.obj a ∧
    ∀ r, r < h.next → (h.roundTrip v a).1.obj r = h.obj r := by
  have o2 : (h.copy v).2 = h.next := rfl
  have onext : (h.copy v).1.next = h.next + 1 := rfl
  have onew : (h.copy v).1.obj h.next = h.obj v := by
    simp [Heap.copy, Heap.new]
  have orest : ∀ r, r < h.next → (h.copy v).1.obj r = h.obj r := by
    intro r hr
    have hne : r ≠ h.next := by omega
    simp [Heap.copy, Heap.new, hne]
  obtain ⟨b1, b2, b3, b4, b5⟩ := effect_addV (h.copy v).1 (h.copy v).2 a (by rw [o2, onext]; omega)
  obtain ⟨c1, c2, c3, c4, c5⟩ :=
    effect_subV ((h.copy v).1.addV (h.copy v).2 a).1 ((h.copy v).1.addV (h.copy v).2 a).2 a
      b4
  simp only [o2] at b1 b2 b3 b4 b5 c1 c2 c3 c4 c5
  rw [onext] at b3 b5
  have hrest : ∀ r, r < h.next → (h.roundTrip v a).1.obj r = h.obj r := by
    intro r hr
    unfold Heap.roundTrip
    simp only [o2]
    rw [c5 r (by omega) (by omega), b5 r (by omega) (by omega), orest r hr]
  refine ⟨?_, hrest v hv, hrest a ha, hrest⟩
  unfold Heap.roundTrip
  simp only [o2]
  rw [c2, c1, b2, b1, onew, b5 a (by omega) (by omega), orest a ha]
  simp [vector.subV, vector.sub, vector.addV, vector.add, vector.set]

/-- Witness of C16: `v = (3, 4)` behind reference `0` and `a = (1, 2)` behind
reference `1`. -/
theorem additive_round_trip_witness :
    ((twoVectors : Heap ℚ).roundTrip 0 1).1.obj ((twoVectors : Heap ℚ).roundTrip 0 1).2
      = { x := 3, y := 4 } ∧
    ((twoVectors : Heap ℚ).roundTrip 0 1).1.obj 0 = { x := 3, y := 4 } ∧
    ((twoVectors : Heap ℚ).roundTrip 0 1).1.obj 1 = { x := 1, y := 2 } :=
  ⟨(additive_round_trip twoVectors 0 1 (by decide) (by decide)).1,
    (additive_round_trip twoVectors 0 1 (by decide) (by decide)).2.1,
    (additive_round_trip twoVectors 0 1 (by decide) (by decide)).2.2.1⟩

/-- C17: the dual contract of the mutators. For a vector object in memory and
all arguments, each of `set`, `setV`, `add`, `addV`, `sub`, `subV`, `scale`,
`scaleV`, `clamp`, `round`, `floor`, `celi`, `normalize`, `rotate`,
`setByAngle` and `addOffsetByAngle` leaves the result of the operation in the
receiver and returns a reference to a new object whose components are those
of the receiver after the call; no other object changes (`normalize` is
taken on a vector of non-zero length, where its quotients are defined). In
particular
`add(x, y)` makes the receiver `(this.x + x, this.y + y)`, `sub(x, y)` makes
it `(this.x - x, this.y - y)` and `scale(x, y)` makes it
`(this.x * x, this.y * y)`. For `celi` the result is what the source computes,
`Math.round` of both components. -/
theorem dual_contract (M : JSMath α) (h : Heap α) (self v min max : Nat) (x y angle length : α)
    (hself : self < h.next) :
    h.Effect self ((h.obj self).set x y) (h.set self x y) ∧
    h.Effect self ((h.obj self).setV (h.obj v)) (h.setV self v) ∧
    h.Effect self ((h.obj self).add x y) (h.add self x y) ∧
    h.Effect self ((h.obj self).addV (h.obj v)) (h.addV self v) ∧
    h.Effect self ((h.obj self).sub x y) (h.sub self x y) ∧
    h.Effect self ((h.obj self).subV (h.obj v)) (h.subV self v) ∧
    h.Effect self ((h.obj self).scale x y) (h.scale self x y) ∧
    h.Effect self ((h.obj self).scaleV (h.obj v)) (h.scaleV self v) ∧
    h.Effect self ((h.obj self).clamp (h.obj min) (h.obj max)) (h.clamp self min max) ∧
    h.Effect self ((h.obj self).round M) (h.round M self) ∧
    h.Effect self ((h.obj self).floor M) (h.floor M self) ∧
    h.Effect self ((h.obj self).celi M) (h.celi M self) ∧
    ((h.obj self).length M ≠ 0 →
      h.Effect self ((h.obj self).normalize M) (h.normalize M self)) ∧
    h.Effect self ((h.obj self).rotate M angle) (h.rotate M self angle) ∧
    h.Effect self ((h.obj self).setByAngle M angle length) (h.setByAngle M self angle length) ∧
    h.Effect self ((h.obj self).addOffsetByAngle M angle length)
      (h.addOffsetByAngle M self angle length) ∧
    (h.obj self).add x y = { x := (h.obj self).x + x, y := (h.obj self).y + y } ∧
    (h.obj self).sub x y = { x := (h.obj self).x - x, y := (h.obj self).y - y } ∧
    (h.obj self).scale x y = { x := (h.obj self).x * x, y := (h.obj self).y * y } :=
  ⟨effect_set h self x y hself, effect_setV h self v hself, effect_add h self x y hself,
    effect_addV h self v hself, effect_sub h self x y hself, effect_subV h self v hself,
    effect_scale h self x y hself, effect_scaleV h self v hself,
    effect_clamp h self min max hself, effect_round M h self hself,
    effect_floor M h self hself, effect_celi M h self hself,
    fun _ => effect_normalize M h self hself,
    effect_rotate M h self angle hself, effect_setByAngle M h self angle length hself,
    effect_addOffsetByAngle M h self angle length hself, rfl, rfl, rfl⟩

/-- Witness of C17: the vector `(3, 4)` behind reference `0`: `add(1, 2)`
leaves `(4, 6)` in it, and `scaleV` with the vector `(1, 2)` behind reference
`1` leaves `(3, 8)`; both return a new object with these components. -/
theorem dual_contract_witness :
    (twoVectors : Heap ℝ).Effect 0 { x := 4, y := 6 } (twoVectors.add 0 1 2) ∧
    (twoVectors : Heap ℝ).Effect 0 { x := 3, y := 8 } (twoVectors.scaleV 0 1) := by
  have hw := dual_contract realMath (twoVectors : Heap ℝ) 0 1 1 1 1 2 0 0 (by decide)
  have e1 : ((twoVectors : Heap ℝ).obj 0).add 1 2 = { x := 4, y := 6 } := by
    norm_num [twoVectors, vector.add]
  have e2 : ((twoVectors : Heap ℝ).obj 0).scaleV ((twoVectors : Heap ℝ).obj 1)
      = { x := 3, y := 8 } := by
    norm_num [twoVectors, vector.scaleV, vector.scale]
  rw [← e1, ← e2]
  exact ⟨hw.2.2.1, hw.2.2.2.2.2.2.2.1⟩

/-- C18: `within_range` is the inclusive bounding-box test. It returns `true`
exactly when `min.x ≤ v.x ≤ max.x` and `min.y ≤ v.y ≤ max.y`; so a point of the
box on one of its four edges is inside, and when `min` exceeds `max` on an
axis the result is `false` for every `v`. -/
theorem within_range_inclusive (v min max : vector α) :
    (v.within_range min max = true ↔
      min.x ≤ v.x ∧ v.x ≤ max.x ∧ min.y ≤ v.y ∧ v.y ≤ max.y) ∧
    (min.x ≤ v.x → v.x ≤ max.x → min.y ≤ v.y → v.y ≤ max.y →
      (v.x = min.x ∨ v.x = max.x ∨ v.y = min.y ∨ v.y = max.y) →
        v.within_range min max = true) ∧
    (max.x < min.x ∨ max.y < min.y → v.within_range min max = false) := by
  refine ⟨within_range_eq_true_iff v min max, ?_, ?_⟩
  · intro h1 h2 h3 h4 _
    exact (within_range_eq_true_iff v min max).2 ⟨h1, h2, h3, h4⟩
  · intro hinv
    cases hb : v.within_range min max with
    | false => rfl
    | true =>
      obtain ⟨h1, h2, h3, h4⟩ := (within_range_eq_true_iff v min max).1 hb
      rcases hinv with hx | hy
      · exact absurd (le_trans h1 h2) (not_le.2 hx)
      · exact absurd (le_trans h3 h4) (not_le.2 hy)

/-- Witness of C18: the box from `(0, 0)` to `(100, 100)` contains the edge
point `(0, 50)`; the inverted box from `(10, 0)` to `(0, 10)` does not contain
`(5, 5)`. -/
theorem within_range_inclusive_witness :
    ({ x := 0, y := 50 } : vector ℚ).within_range { x := 0, y := 0 } { x := 100, y := 100 }
      = true ∧
    ({ x := 5, y := 5 } : vector ℚ).within_range { x := 10, y := 0 } { x := 0, y := 10 }
      = false :=
  ⟨(within_range_inclusive ({ x := 0, y := 50 } : vector ℚ) { x := 0, y := 0 }
      { x := 100, y := 100 }).2.1 (le_refl _) (by norm_num) (by norm_num) (by norm_num)
      (Or.inl rfl),
    (within_range_inclusive ({ x := 5, y := 5 } : vector ℚ) { x := 10, y := 0 }
      { x := 0, y := 10 }).2.2 (Or.inl (by norm_num))⟩

/-! ## Claims on the easing functions -/

/-- C19: boundary fixed points. The registry `easeFunctions` maps `sine`,
`inOutSine`, `outCubic` and `inOutCubic` to the four easing functions, and
over the reals each of them maps `0` to `0` and `1` to `1`. -/
theorem easing_fixed_points :
    (easeFunctions realMath "sine" = some (easeInSine realMath) ∧
      easeInSine realMath 0 = 0 ∧ easeInSine realMath 1 = 1) ∧
    (easeFunctions realMath "inOutSine" = some (easeInOutSine realMath) ∧
      easeInOutSine realMath 0 = 0 ∧ easeInOutSine realMath 1 = 1) ∧
    (easeFunctions realMath "outCubic" = some easeOutCubic ∧
      easeOutCubic (0 : ℝ) = 0 ∧ easeOutCubic (1 : ℝ) = 1) ∧
    (easeFunctions realMath "inOutCubic" = some easeInOutCubic ∧
      easeInOutCubic (0 : ℝ) = 0 ∧ easeInOutCubic (1 : ℝ) = 1) := by
  refine ⟨⟨?_, ?_, ?_⟩, ⟨?_, ?_, ?_⟩, ⟨?_, ?_, ?_⟩, ⟨?_, ?_, ?_⟩⟩
  · simp [easeFunctions]
  · simp [easeInSine, realMath]
  · simp [easeInSine, realMath]
  · simp [easeFunctions]
  · simp [easeInOutSine, realMath]
  · simp [easeInOutSine, realMath]
  · simp [easeFunctions]
  · simp [easeOutCubic]
  · simp [easeOutCubic]
  · simp [easeFunctions]
  · norm_num [easeInOutCubic]
  · norm_num [easeInOutCubic]

/-- C20: every registered easing function maps `[0, 1]` into `[0, 1]`: for
every name in the registry and every real `x` with `0 ≤ x ≤ 1`, the function
registered under the name has `0 ≤ ease(x) ≤ 1`. -/
theorem easing_maps_unit_interval (name : String) (x : ℝ) (hname : name ∈ easeNames)
    (h0 : 0 ≤ x) (h1 : x ≤ 1) :
    ∃ f, easeFunctions realMath name = some f ∧ 0 ≤ f x ∧ f x ≤ 1 := by
  simp only [easeNames, List.mem_cons, List.mem_singleton, List.mem_nil_iff, or_false] at hname
  rcases hname with h | h | h | h <;> subst h
  · refine ⟨easeInSine realMath, by simp [easeFunctions], ?_, ?_⟩
    · have hc : Real.cos (x * Real.pi / 2) ≤ 1 := Real.cos_le_one _
      simp only [easeInSine, realMath]
      linarith
    · have hpi := Real.pi_pos
      have hc : 0 ≤ Real.cos (x * Real.pi / 2) :=
        Real.cos_nonneg_of_neg_pi_div_two_le_of_le (by nlinarith) (by nlinarith)
      simp only [easeInSine, realMath]
      linarith
  · have hc1 : Real.cos (Real.pi * x) ≤ 1 := Real.cos_le_one _
    have hc2 : -1 ≤ Real.cos (Real.pi * x) := Real.neg_one_le_cos _
    refine ⟨easeInOutSine realMath, by simp [easeFunctions], ?_, ?_⟩
    · simp only [easeInOutSine, realMath]
      linarith
    · simp only [easeInOutSine, realMath]
      linarith
  · have hy0 : 0 ≤ 1 - x := by linarith
    have hy1 : 1 - x ≤ 1 := by linarith
    have hp0 : 0 ≤ (1 - x) ^ 3 := pow_nonneg hy0 3
    have hp1 : (1 - x) ^ 3 ≤ 1 := pow_le_one₀ hy0 hy1
    refine ⟨easeOutCubic, by simp [easeFunctions], ?_, ?_⟩
    · simp only [easeOutCubic]; linarith
    · simp only [easeOutCubic]; linarith
  · refine ⟨easeInOutCubic, by simp [easeFunctions], ?_, ?_⟩
    · unfold easeInOutCubic
      split_ifs with hx
      · have : 0 ≤ x * x * x := mul_nonneg (mul_nonneg h0 h0) h0
        linarith
      · have hy0 : 0 ≤ -2 * x + 2 := by linarith
        have hy1 : -2 * x + 2 ≤ 1 := by linarith [not_lt.1 hx]
        have hp1 : (-2 * x + 2) ^ 3 ≤ 1 := pow_le_one₀ hy0 hy1
        linarith
    · unfold easeInOutCubic
      split_ifs with hx
      · have hx2 : x * x ≤ 1 / 4 := by nlinarith
        have hx3 : x * x * x ≤ 1 / 8 := by nlinarith [mul_nonneg h0 h0]
        linarith
      · have hy0 : 0 ≤ -2 * x + 2 := by linarith
        have hp0 : 0 ≤ (-2 * x + 2) ^ 3 := pow_nonneg hy0 3
        linarith

/-- Witness of C20: the easing `inOutCubic` at `x = 1/2`. -/
theorem easing_maps_unit_interval_witness :
    ∃ f, easeFunctions realMath "inOutCubic" = some f ∧ 0 ≤ f (1 / 2) ∧ f (1 / 2) ≤ 1 :=
  easing_maps_unit_interval "inOutCubic" (1 / 2) (by simp [easeNames]) (by norm_num)
    (by norm_num)

/-! ## Claims on angles and rounding -/

/-- C21: for every angle `θ` and every length `L ≥ 0`, the vector that
`setByAngle(θ, L)` leaves in its receiver (a new vector or any other) has
length `L`, over the reals. For any real `L` the length is `|L|`. -/
theorem setByAngle_length (v : vector ℝ) (θ L : ℝ) :
    (v.setByAngle realMath θ L).length realMath = |L| ∧
    (0 ≤ L → (v.setByAngle realMath θ L).length realMath = L) := by
  have h : (v.setByAngle realMath θ L).length realMath = |L| := by
    simp only [vector.setByAngle, vector.set, vector.length, realMath]
    have e : (Real.cos θ * L) ^ 2 + (Real.sin θ * L) ^ 2 = L ^ 2 := by
      have hcs := Real.cos_sq_add_sin_sq θ
      nlinarith [hcs]
    rw [e, Real.sqrt_sq_eq_abs]
  exact ⟨h, fun hL => by rw [h, abs_of_nonneg hL]⟩

/-- Witness of C21: the angle `1` and the length `2` on a new vector. -/
theorem setByAngle_length_witness :
    (vector.setByAngle realMath { x := 0, y := 0 } 1 2).length realMath = 2 :=
  (setByAngle_length { x := 0, y := 0 } 1 2).2 (by norm_num)

/-- C22, the claim at a concrete input: with the angle `1`, which lies in
`(-π, π]`, and the length `0`, the vector left by `setByAngle(1, 0)` has angle
`0`, not `1`. -/
theorem setByAngle_angle_zero_length :
    (vector.setByAngle realMath { x := 0, y := 0 } 1 0).angle realMath = 0 ∧
    (vector.setByAngle realMath { x := 0, y := 0 } 1 0).angle realMath ≠ 1 ∧
    -Real.pi < 1 ∧ 1 ≤ Real.pi := by
  have h : (vector.setByAngle realMath { x := 0, y := 0 } 1 0).angle realMath = 0 := by
    simp only [vector.setByAngle, vector.set, vector.angle, realMath, mul_zero]
    exact Complex.arg_zero
  have hpi := Real.pi_gt_three
  exact ⟨h, by rw [h]; norm_num, by linarith, by linarith⟩

/-- C22 as amended: for every angle `θ` and every length `L > 0`, the vector
left by `setByAngle(θ, L)` has an angle in `(-π, π]` that differs from `θ` by a
whole multiple of `2π`, over the reals: it is `θ` normalised into `(-π, π]`. -/
theorem setByAngle_angle (v : vector ℝ) (θ L : ℝ) (hL : 0 < L) :
    -Real.pi < (v.setByAngle realMath θ L).angle realMath ∧
    (v.setByAngle realMath θ L).angle realMath ≤ Real.pi ∧
    ∃ k : ℤ, (v.setByAngle realMath θ L).angle realMath = θ + k * (2 * Real.pi) := by
  have hz : ({ re := Real.cos θ * L, im := Real.sin θ * L } : ℂ)
      = (L : ℂ) * Complex.exp (θ * Complex.I) := by
    apply Complex.ext
    · simp only [Complex.mul_re, Complex.ofReal_re, Complex.ofReal_im,
        Complex.exp_ofReal_mul_I_re, zero_mul, sub_zero]
      ring
    · simp only [Complex.mul_im, Complex.ofReal_re, Complex.ofReal_im,
        Complex.exp_ofReal_mul_I_im, zero_mul, add_zero]
      ring
  have harg : (v.setByAngle realMath θ L).angle realMath
      = toIocMod Real.two_pi_pos (-Real.pi) θ := by
    simp only [vector.setByAngle, vector.set, vector.angle, realMath]
    rw [hz, Complex.arg_real_mul _ hL, Complex.arg_exp_mul_I]
  have hmem := toIocMod_mem_Ioc Real.two_pi_pos (-Real.pi) θ
  have hdiv := toIocMod_add_toIocDiv_zsmul Real.two_pi_pos (-Real.pi) θ
  rw [harg]
  refine ⟨hmem.1, by have := hmem.2; linarith, -toIocDiv Real.two_pi_pos (-Real.pi) θ, ?_⟩
  rw [zsmul_eq_mul] at hdiv
  push_cast
  linarith

/-- Witness of C22 as amended: the angle `1` and the length `2`. -/
theorem setByAngle_angle_witness :
    (0 : ℝ) < 2 ∧
    -Real.pi < (vector.setByAngle realMath { x := 0, y := 0 } 1 2).angle realMath ∧
    (vector.setByAngle realMath { x := 0, y := 0 } 1 2).angle realMath ≤ Real.pi ∧
    ∃ k : ℤ, (vector.setByAngle realMath { x := 0, y := 0 } 1 2).angle realMath
      = 1 + k * (2 * Real.pi) :=
  ⟨by norm_num, setByAngle_angle { x := 0, y := 0 } 1 2 (by norm_num)⟩

/-- C24, the code at a failing input: on the vector `(1/5, 1/5)` the method
`celi()` leaves `(0, 0)` in the receiver, while the least integer above `1/5`
is `1`. -/
theorem celi_rounds_down :
    vector.celi realMath { x := 1 / 5, y := 1 / 5 } = { x := 0, y := 0 } ∧
    Int.ceil (1 / 5 : ℝ) = 1 := by
  constructor
  · have hf : Int.floor ((1 : ℝ) / 5 + 1 / 2) = 0 := by norm_num [Int.floor_eq_iff]
    have hr : realMath.round (1 / 5) = 0 := by
      show ((Int.floor ((1 : ℝ) / 5 + 1 / 2) : ℤ) : ℝ) = 0
      rw [hf]
      exact Int.cast_zero
    simp only [vector.celi, vector.set, hr]
  · norm_num [Int.ceil_eq_iff]

/-- C25, the code at a failing input: after key-down `a` and key-down `b` the
held-key sequence is `['a', 'b']` and `get_last_key()` returns `a`, the oldest
entry, while the most recent key is `b`. -/
theorem get_last_key_returns_first :
    heldAB.lastKeys = ["a", "b"] ∧ get_last_key heldAB = some "a" ∧
    heldAB.lastKeys.getLast? = some "b" := by
  decide

/-- C26: `rotate(a)` rotates the vector by the angle `a`. For every vector
`(x, y)` and every real `a` the receiver after `rotate(a)` is
`(x cos a - y sin a, x sin a + y cos a)`, over the reals; its length is the
length before the call, and the zero vector stays the zero vector. -/
theorem rotate_is_rotation (v : vector ℝ) (a : ℝ) :
    v.rotate realMath a =
      { x := v.x * Real.cos a - v.y * Real.sin a, y := v.x * Real.sin a + v.y * Real.cos a } ∧
    (v.rotate realMath a).length realMath = v.length realMath ∧
    vector.rotate realMath { x := 0, y := 0 } a = { x := 0, y := 0 } := by
  have hrot : ∀ w : vector ℝ, w.rotate realMath a =
      { x := w.x * Real.cos a - w.y * Real.sin a,
        y := w.x * Real.sin a + w.y * Real.cos a } := by
    intro w
    have habs : Real.sqrt (w.x ^ 2 + w.y ^ 2) = Complex.abs { re := w.x, im := w.y } := by
      rw [Complex.abs_apply, Complex.normSq_apply]
      simp only [sq]
    have hc := Complex.abs_mul_cos_arg { re := w.x, im := w.y }
    have hs := Complex.abs_mul_sin_arg { re := w.x, im := w.y }
    simp only at hc hs
    simp only [vector.rotate, vector.setByAngle, vector.set, vector.length, vector.angle,
      realMath, habs, Real.cos_add, Real.sin_add]
    congr 1
    · linear_combination Real.cos a * hc - Real.sin a * hs
    · linear_combination Real.cos a * hs + Real.sin a * hc
  refine ⟨hrot v, ?_, ?_⟩
  · rw [hrot v]
    simp only [vector.length, realMath]
    congr 1
    have hcs := Real.cos_sq_add_sin_sq a
    linear_combination (v.x ^ 2 + v.y ^ 2) * hcs
  · rw [hrot]
    simp

/-! ## More claims on widgets -/

/-- C23: for all constructor arguments a `Button` is a `Panel` whose list of
children holds exactly one element, the label `new Label()`, and whose flag
`grab_enabled` is `false`; `grabbed`, `hover` and `click` are `false` and the
animation list is empty. -/
theorem button_shape (text : String) (position size : vector α) (fill stroke : Color α)
    (lineWidth borderRadius : α) :
    (Button.new text position size fill stroke lineWidth borderRadius).children
      = [Sum.inr Label.default] ∧
    (Button.new text position size fill stroke lineWidth borderRadius).children.length = 1 ∧
    (Button.new text position size fill stroke lineWidth borderRadius).grab_enabled = false ∧
    (Button.new text position size fill stroke lineWidth borderRadius).grabbed = false ∧
    (Button.new text position size fill stroke lineWidth borderRadius).hover = false ∧
    (Button.new text position size fill stroke lineWidth borderRadius).click = false ∧
    (Button.new text position size fill stroke lineWidth borderRadius).animations = [] ∧
    (Button.new text position size fill stroke lineWidth borderRadius).position = position ∧
    (Button.new text position size fill stroke lineWidth borderRadius).size = size :=
  ⟨rfl, rfl, rfl, rfl, rfl, rfl, rfl, rfl, rfl⟩

/-- C28: `mouse_check()` moves a widget only while it is dragged. For a widget
whose flag `grabbed` is `false` on entry, and for a widget with grab disabled,
and every input, `mouse_check()` leaves `position` and `size` as they were, in
exact arithmetic. -/
theorem mouse_check_keeps_position (w : Interactive α) (u : UserInput α) :
    (w.grabbed = false →
      (w.mouse_check u).1.position = w.position ∧ (w.mouse_check u).1.size = w.size) ∧
    (w.grab_enabled = false →
      (w.mouse_check u).1.position = w.position ∧ (w.mouse_check u).1.size = w.size) := by
  constructor
  · intro hfree
    simp only [Interactive.mouse_check, Interactive.recompute, Interactive.grab, hfree]
    split_ifs <;>
      simp_all [vector.setV, vector.set, vector.subV, vector.sub, vector.copy]
  · intro hoff
    simp [Interactive.mouse_check, Interactive.recompute, Interactive.grab, hoff]

/-- Witness of C28: the grab-enabled widget `dragWidget`, not grabbed, on the
frame where the button goes down inside its box, and the widget `boxWidget`
with grab disabled. -/
theorem mouse_check_keeps_position_witness :
    ((dragWidget.mouse_check pressAt10).1.position = dragWidget.position ∧
      (dragWidget.mouse_check pressAt10).1.size = dragWidget.size) ∧
    (((boxWidget : Interactive ℚ).mouse_check pressAt50).1.position
        = (boxWidget : Interactive ℚ).position ∧
      ((boxWidget : Interactive ℚ).mouse_check pressAt50).1.size
        = (boxWidget : Interactive ℚ).size) :=
  ⟨(mouse_check_keeps_position dragWidget pressAt10).1 rfl,
    (mouse_check_keeps_position boxWidget pressAt50).2 rfl⟩

/-! ## Lemmas on bounds of animated values -/

theorem lerp_between (A B t : α) (h0 : 0 ≤ t) (h1 : t ≤ 1) :
    min A B ≤ lerp A B t ∧ lerp A B t ≤ max A B := by
  unfold lerp
  rcases le_total A B with h | h
  · rw [min_eq_left h, max_eq_right h]
    have hd : 0 ≤ B - A := sub_nonneg.2 h
    have h2 : t * (B - A) ≤ 1 * (B - A) := mul_le_mul_of_nonneg_right h1 hd
    have h3 : 0 ≤ t * (B - A) := mul_nonneg h0 hd
    constructor <;> linarith
  · rw [min_eq_right h, max_eq_left h]
    have hd : 0 ≤ A - B := sub_nonneg.2 h
    have h2 : t * (A - B) ≤ 1 * (A - B) := mul_le_mul_of_nonneg_right h1 hd
    have h3 : 0 ≤ t * (A - B) := mul_nonneg h0 hd
    constructor <;> linarith

theorem easeInSine_unit (x : ℝ) (h0 : 0 ≤ x) (h1 : x ≤ 1) :
    0 ≤ easeInSine realMath x ∧ easeInSine realMath x ≤ 1 := by
  have hpi := Real.pi_pos
  have hc1 : Real.cos (x * Real.pi / 2) ≤ 1 := Real.cos_le_one _
  have hc0 : 0 ≤ Real.cos (x * Real.pi / 2) :=
    Real.cos_nonneg_of_neg_pi_div_two_le_of_le (by nlinarith) (by nlinarith)
  simp only [easeInSine, realMath]
  constructor <;> linarith

theorem easeInOutSine_unit (x : ℝ) :
    0 ≤ easeInOutSine realMath x ∧ easeInOutSine realMath x ≤ 1 := by
  have hc1 : Real.cos (Real.pi * x) ≤ 1 := Real.cos_le_one _
  have hc2 : -1 ≤ Real.cos (Real.pi * x) := Real.neg_one_le_cos _
  simp only [easeInOutSine, realMath]
  constructor <;> linarith

theorem easeOutCubic_unit (x : ℝ) (h0 : 0 ≤ x) (h1 : x ≤ 1) :
    0 ≤ easeOutCubic x ∧ easeOutCubic x ≤ 1 := by
  have hy0 : 0 ≤ 1 - x := by linarith
  have hy1 : 1 - x ≤ 1 := by linarith
  have hp0 : 0 ≤ (1 - x) ^ 3 := pow_nonneg hy0 3
  have hp1 : (1 - x) ^ 3 ≤ 1 := pow_le_one₀ hy0 hy1
  simp only [easeOutCubic]
  constructor <;> linarith

theorem easeInOutCubic_unit (x : ℝ) (h0 : 0 ≤ x) (h1 : x ≤ 1) :
    0 ≤ easeInOutCubic x ∧ easeInOutCubic x ≤ 1 := by
  unfold easeInOutCubic
  split_ifs with hx
  · have hnn : 0 ≤ x * x * x := mul_nonneg (mul_nonneg h0 h0) h0
    have hx2 : x * x ≤ 1 / 4 := by nlinarith
    have hx3 : x * x * x ≤ 1 / 8 := by nlinarith [mul_nonneg h0 h0]
    constructor <;> linarith
  · have hy0 : 0 ≤ -2 * x + 2 := by linarith
    have hy1 : -2 * x + 2 ≤ 1 := by linarith [not_lt.1 hx]
    have hp0 : 0 ≤ (-2 * x + 2) ^ 3 := pow_nonneg hy0 3
    have hp1 : (-2 * x + 2) ^ 3 ≤ 1 := pow_le_one₀ hy0 hy1
    constructor <;> linarith

theorem ease_unit (name : String) (f : ℝ → ℝ) (x : ℝ)
    (hf : easeFunctions realMath name = some f) (h0 : 0 ≤ x) (h1 : x ≤ 1) :
    0 ≤ f x ∧ f x ≤ 1 := by
  unfold easeFunctions at hf
  split_ifs at hf <;> simp only [Option.some.injEq] at hf <;> subst hf
  · exact easeInSine_unit x h0 h1
  · exact easeInOutSine_unit x
  · exact easeOutCubic_unit x h0 h1
  · exact easeInOutCubic_unit x h0 h1

/-! ## Claims on bounds of animated values -/

/-- C29: animated values never overshoot. For an `AnimationValue` with
duration at least `1`, `0 ≤ frame ≤ duration`, any start and end and any
registered easing, `update()` returns and the value it writes to the target
field lies between `min(start, end)` and `max(start, end)`, both included; for
an `AnimationVector` on a vector-valued field this holds for each component of
the vector it writes. Over the reals. -/
theorem animation_never_overshoots :
    (∀ (a : AnimationValue ℝ) (obj : NumObject ℝ),
      1 ≤ a.length → 0 ≤ a.frame → a.frame ≤ a.length → a.ease ∈ easeNames →
      ∃ a1 obj1 v, a.update realMath obj = some (a1, obj1) ∧ obj1 a.value = some v ∧
        min a.start a.end_ ≤ v ∧ v ≤ max a.start a.end_) ∧
    (∀ (a : AnimationVector ℝ) (w : Interactive ℝ),
      1 ≤ a.length → 0 ≤ a.frame → a.frame ≤ a.length → a.ease ∈ easeNames →
      a.value ∈ vectorFieldNames →
      ∃ a1 w1 off, a.update realMath w = some (a1, w1) ∧ a1.offset = some off ∧
        w.setVField a.value off = some w1 ∧
        min a.start.x a.end_.x ≤ off.x ∧ off.x ≤ max a.start.x a.end_.x ∧
        min a.start.y a.end_.y ≤ off.y ∧ off.y ≤ max a.start.y a.end_.y) := by
  constructor
  · intro a obj hlen h0 _ hease
    obtain ⟨f, hf⟩ := easeFunctions_of_mem realMath a.ease hease
    obtain ⟨_, _, b2, b3⟩ := frame_bounds a.frame a.length hlen h0
    rw [← nextFrame_eq_min] at b2 b3
    obtain ⟨t0, t1⟩ := ease_unit a.ease f _ hf b2 b3
    obtain ⟨l0, l1⟩ := lerp_between a.start a.end_ _ t0 t1
    exact ⟨_, _, _, animationValue_update_eq realMath a obj f hf,
      by simp [NumObject.assign], l0, l1⟩
  · intro a w hlen h0 _ hease hfield
    obtain ⟨f, hf⟩ := easeFunctions_of_mem realMath a.ease hease
    obtain ⟨_, _, b2, b3⟩ := frame_bounds a.frame a.length hlen h0
    rw [← nextFrame_eq_min] at b2 b3
    obtain ⟨t0, t1⟩ := ease_unit a.ease f _ hf b2 b3
    obtain ⟨lx0, lx1⟩ := lerp_between a.start.x a.end_.x _ t0 t1
    obtain ⟨ly0, ly1⟩ := lerp_between a.start.y a.end_.y _ t0 t1
    obtain ⟨w1, hw, hupd⟩ := animationVector_update_eq realMath a w f hf hfield
    exact ⟨_, w1, _, hupd, rfl, hw, lx0, lx1, ly0, ly1⟩

/-- Witness of C29: the animations `tenInFive` and `slideInFive` at frame `0`. -/
theorem animation_never_overshoots_witness :
    (∃ a1 obj1 v, (tenInFive : AnimationValue ℝ).update realMath emptyObject = some (a1, obj1) ∧
      obj1 "x" = some v ∧ min 0 10 ≤ v ∧ v ≤ max 0 10) ∧
    (∃ a1 w1 off, (slideInFive : AnimationVector ℝ).update realMath boxWidget = some (a1, w1) ∧
      a1.offset = some off ∧ boxWidget.setVField "position" off = some w1 ∧
      min 0 10 ≤ off.x ∧ off.x ≤ max 0 10 ∧ min 0 10 ≤ off.y ∧ off.y ≤ max 0 10) :=
  ⟨animation_never_overshoots.1 tenInFive emptyObject
      (by norm_num [tenInFive, AnimationValue.new]) (le_refl _)
      (by norm_num [tenInFive, AnimationValue.new])
      (by simp [tenInFive, AnimationValue.new, easeNames]),
    animation_never_overshoots.2 slideInFive boxWidget
      (by norm_num [slideInFive, AnimationVector.new]) (le_refl _)
      (by norm_num [slideInFive, AnimationVector.new])
      (by simp [slideInFive, AnimationVector.new, easeNames])
      (by simp [slideInFive, AnimationVector.new, vectorFieldNames])⟩

/-! ## Lemmas on the grab flags -/

theorem mouse_check_grab_enabled {β : Type} [LinearOrderedField β] (w : Interactive β)
    (u : UserInput β) : (w.mouse_check u).1.grab_enabled = w.grab_enabled := by
  simp only [Interactive.mouse_check, Interactive.recompute, Interactive.grab]
  split_ifs <;> rfl

theorem mouse_check_grabbed {β : Type} [LinearOrderedField β] (w : Interactive β)
    (u : UserInput β) (hinv : w.grab_enabled = false → w.grabbed = false) :
    (w.mouse_check u).1.grabbed = true →
      (w.mouse_check u).1.grab_enabled = true ∧ u.mouse.is_down = true := by
  rw [mouse_check_grab_enabled]
  simp only [Interactive.mouse_check, Interactive.recompute, Interactive.grab]
  cases hg : w.grab_enabled with
  | false => simp [hinv hg]
  | true =>
    cases hd : u.mouse.is_down
    · simp
      split_ifs <;> simp_all
    · simp

theorem run_widget_step_inv (step : WidgetStep α) (s : Interactive α × UserInput α)
    (hinv : s.1.grab_enabled = false → s.1.grabbed = false) :
    (step.run s).1.grab_enabled = s.1.grab_enabled ∧
    ((step.run s).1.grab_enabled = false → (step.run s).1.grabbed = false) := by
  obtain ⟨w, u⟩ := s
  cases step with
  | input st => exact ⟨rfl, hinv⟩
  | mouse_check =>
    refine ⟨mouse_check_grab_enabled w u, ?_⟩
    intro hoff
    have hoff2 : w.grab_enabled = false := by
      rw [← mouse_check_grab_enabled w u]; exact hoff
    cases hb : ((WidgetStep.mouse_check : WidgetStep α).run (w, u)).1.grabbed with
    | false => rfl
    | true =>
      have h := (mouse_check_grabbed w u hinv hb).1
      rw [mouse_check_grab_enabled, hoff2] at h
      exact absurd h (by decide)

theorem run_widget_steps_inv (steps : List (WidgetStep α)) (s : Interactive α × UserInput α)
    (hinv : s.1.grab_enabled = false → s.1.grabbed = false) :
    (runWidgetSteps steps s).1.grab_enabled = s.1.grab_enabled ∧
    ((runWidgetSteps steps s).1.grab_enabled = false →
      (runWidgetSteps steps s).1.grabbed = false) := by
  induction steps generalizing s with
  | nil => exact ⟨rfl, hinv⟩
  | cons step rest ih =>
    obtain ⟨h1, h2⟩ := run_widget_step_inv step s hinv
    obtain ⟨h3, h4⟩ := ih (step.run s) h2
    exact ⟨h3.trans h1, h4⟩

/-! ## Claim on the grab flags -/

/-- C30: no stuck drag. A widget is constructed and then lives through any
list of steps, each one a step on the input (an event, `update_input()` or
another function of `input.js`) or a call of `mouse_check()`. Right after each
`mouse_check()` the flag `grabbed` is set only if `grab_enabled` is set and the
mouse button is down; `grab_enabled` is the value given to the constructor. -/
theorem no_stuck_drag (position size : vector α) (grab_enabled : Bool)
    (steps : List (WidgetStep α)) :
    (runWidgetSteps (steps ++ [WidgetStep.mouse_check])
        (Interactive.new position size grab_enabled, user_input)).1.grab_enabled
      = grab_enabled ∧
    ((runWidgetSteps (steps ++ [WidgetStep.mouse_check])
        (Interactive.new position size grab_enabled, user_input)).1.grabbed = true →
      (runWidgetSteps (steps ++ [WidgetStep.mouse_check])
        (Interactive.new position size grab_enabled, user_input)).1.grab_enabled = true ∧
      (runWidgetSteps (steps ++ [WidgetStep.mouse_check])
        (Interactive.new position size grab_enabled, user_input)).2.mouse.is_down = true) := by
  have hstart : (Interactive.new position size grab_enabled, (user_input : UserInput α)).1.grab_enabled
      = false → (Interactive.new position size grab_enabled,
        (user_input : UserInput α)).1.grabbed = false := fun _ => rfl
  obtain ⟨h1, h2⟩ := run_widget_steps_inv steps _ hstart
  have hrun : runWidgetSteps (steps ++ [WidgetStep.mouse_check])
      (Interactive.new position size grab_enabled, (user_input : UserInput α))
      = WidgetStep.mouse_check.run (runWidgetSteps steps
        (Interactive.new position size grab_enabled, user_input)) := by
    simp [runWidgetSteps, List.foldl_append]
  rw [hrun]
  generalize runWidgetSteps steps
    (Interactive.new position size grab_enabled, (user_input : UserInput α)) = s at h1 h2 ⊢
  obtain ⟨w, u⟩ := s
  refine ⟨(mouse_check_grab_enabled w u).trans h1, ?_⟩
  exact mouse_check_grabbed w u h2

/-- Witness of C30: a grab-enabled widget at `(0, 0)` of size `(50, 50)`; the
mouse moves to `(10, 10)`, the button goes down, `mouse_check()` runs: the
widget is grabbed, grab is enabled and the button is down. -/
theorem no_stuck_drag_witness :
    (runWidgetSteps ([WidgetStep.input (InputStep.mousemove 10 10),
        WidgetStep.input InputStep.mousedown] ++ [WidgetStep.mouse_check])
      (Interactive.new ({ x := 0, y := 0 } : vector ℚ) { x := 50, y := 50 } true,
        user_input)).1.grabbed = true ∧
    (runWidgetSteps ([WidgetStep.input (InputStep.mousemove 10 10),
        WidgetStep.input InputStep.mousedown] ++ [WidgetStep.mouse_check])
      (Interactive.new ({ x := 0, y := 0 } : vector ℚ) { x := 50, y := 50 } true,
        user_input)).1.grab_enabled = true ∧
    (runWidgetSteps ([WidgetStep.input (InputStep.mousemove 10 10),
        WidgetStep.input InputStep.mousedown] ++ [WidgetStep.mouse_check])
      (Interactive.new ({ x := 0, y := 0 } : vector ℚ) { x := 50, y := 50 } true,
        user_input)).2.mouse.is_down = true := by
  have hg : (runWidgetSteps ([WidgetStep.input (InputStep.mousemove 10 10),
        WidgetStep.input InputStep.mousedown] ++ [WidgetStep.mouse_check])
      (Interactive.new ({ x := 0, y := 0 } : vector ℚ) { x := 50, y := 50 } true,
        user_input)).1.grabbed = true := by
    norm_num [runWidgetSteps, WidgetStep.run, InputStep.run, Interactive.mouse_check,
      Interactive.recompute, Interactive.grab, Interactive.new, mousedown, mousemove,
      user_input, vector.set, vector.within_range, vector.copy, vector.addV, vector.add]
  exact ⟨hg, (no_stuck_drag _ _ _ _).2 hg⟩

/-! ## Lemmas on `Panel.update()` -/

theorem forEachAnimation_sound (M : JSMath α) (n : Nat) :
    ∀ (k : Nat) (i : Interactive α) (as : List (AnimationVector α)), animationsSound as →
      ∃ i1 as1, Panel.forEachAnimation M n k (i, as) = some (i1, as1) ∧ animationsSound as1 := by
  induction n with
  | zero => exact fun k i as h => ⟨i, as, rfl, h⟩
  | succ n ih =>
    intro k i as h
    unfold Panel.forEachAnimation
    cases hk : as[k]? with
    | none => exact ih (k + 1) i as h
    | some a =>
      have hmem : a ∈ as := List.getElem?_mem hk
      obtain ⟨hease, hfield⟩ := h a hmem
      obtain ⟨f, hf⟩ := easeFunctions_of_mem M a.ease hease
      obtain ⟨w1, _, hupd⟩ := animationVector_update_eq M a i f hf hfield
      have hset : animationsSound (as.set k
          { a with
            frame := nextFrame a.frame a.length
            t := f (nextFrame a.frame a.length / a.length)
            offset := some (lerp_vector a.start a.end_
              (f (nextFrame a.frame a.length / a.length))) }) := by
        intro b hb
        rcases List.mem_or_eq_of_mem_set hb with hb1 | hb1
        · exact h b hb1
        · subst hb1; exact ⟨hease, hfield⟩
      simp only [hupd]
      split_ifs
      · exact ih (k + 1) w1 _ (fun b hb => hset b ((List.eraseIdx_sublist _ _).subset hb))
      · exact ih (k + 1) w1 _ hset

mutual
theorem update_sound (M : JSMath α) (u : UserInput α) :
    ∀ (p : Panel α), p.Sound → ∃ p1, Panel.update M u p = some p1 ∧ p1.Sound
  | ⟨i, fill, stroke, lineWidth, borderRadius, children, animations⟩, h => by
    simp only [Panel.Sound] at h
    obtain ⟨i1, as1, hrun, has1⟩ :=
      forEachAnimation_sound M animations.length 0 i animations h.1
    obtain ⟨cs1, hcs, hcs1⟩ := updateChildren_sound M u children h.2
    refine ⟨⟨(i1.mouse_check u).1, fill, stroke, lineWidth, borderRadius, cs1, as1⟩, ?_, ?_⟩
    · simp only [Panel.update, hrun, hcs]
    · simp only [Panel.Sound]
      exact ⟨has1, hcs1⟩
theorem updateChild_sound (M : JSMath α) (u : UserInput α) :
    ∀ (c : Panel α ⊕ Label α), Panel.SoundChild c →
      ∃ c1, Panel.updateChild M u c = some c1 ∧ Panel.SoundChild c1
  | Sum.inl p, h => by
    simp only [Panel.SoundChild] at h
    obtain ⟨p1, hp, hp1⟩ := update_sound M u p h
    exact ⟨Sum.inl p1, by simp only [Panel.updateChild, hp, Option.map_some'], by
      simp only [Panel.SoundChild]; exact hp1⟩
  | Sum.inr l, _ => ⟨Sum.inr l.update, by simp only [Panel.updateChild], by
      simp only [Panel.SoundChild]⟩
theorem updateChildren_sound (M : JSMath α) (u : UserInput α) :
    ∀ (cs : List (Panel α ⊕ Label α)), Panel.SoundChildren cs →
      ∃ cs1, Panel.updateChildren M u cs = some cs1 ∧ Panel.SoundChildren cs1
  | [], _ => ⟨[], by simp only [Panel.updateChildren], by simp only [Panel.SoundChildren]⟩
  | c :: rest, h => by
    simp only [Panel.SoundChildren] at h
    obtain ⟨c1, hc, hc1⟩ := updateChild_sound M u c h.1
    obtain ⟨rest1, hr, hr1⟩ := updateChildren_sound M u rest h.2
    exact ⟨c1 :: rest1, by simp only [Panel.updateChildren, hc, hr], by
      simp only [Panel.SoundChildren]; exact ⟨hc1, hr1⟩⟩
end

theorem update_of_forEach (M : JSMath α) (u : UserInput α) (p : Panel α) (i1 : Interactive α)
    (as1 : List (AnimationVector α)) (hch : Panel.SoundChildren p.children)
    (hrun : Panel.forEachAnimation M p.animations.length 0 (p.toInteractive, p.animations)
      = some (i1, as1)) :
    ∃ p1, Panel.update M u p = some p1 ∧ p1.toInteractive = (i1.mouse_check u).1 ∧
      p1.animations = as1 ∧ Panel.SoundChildren p1.children := by
  obtain ⟨i, fill, stroke, lineWidth, borderRadius, children, animations⟩ := p
  obtain ⟨cs1, hcs, hcs1⟩ := updateChildren_sound M u children hch
  simp only at hrun
  exact ⟨⟨(i1.mouse_check u).1, fill, stroke, lineWidth, borderRadius, cs1, as1⟩,
    by simp only [Panel.update, hrun, hcs], rfl, rfl, hcs1⟩

theorem mouse_check_of_grab_disabled (w : Interactive α) (u : UserInput α)
    (h : w.grab_enabled = false) :
    (w.mouse_check u).1.position = w.position ∧ (w.mouse_check u).1.grab_enabled = false := by
  simp [Interactive.mouse_check, Interactive.recompute, Interactive.grab, h]

theorem shift_step (M : JSMath α) (u : UserInput α) (p : Panel α) (a : AnimationVector α)
    (f : α → α) (hgrab : p.grab_enabled = false) (hch : Panel.SoundChildren p.children)
    (han : p.animations = [a]) (hv : a.value = "position")
    (hf : easeFunctions M a.ease = some f) :
    ∃ p1, Panel.update M u p = some p1 ∧ p1.grab_enabled = false ∧
      Panel.SoundChildren p1.children ∧
      p1.position = lerp_vector a.start a.end_ (f (nextFrame a.frame a.length / a.length)) ∧
      p1.animations =
        if nextFrame a.frame a.length ≥ a.length then []
        else [{ a with
          frame := nextFrame a.frame a.length
          t := f (nextFrame a.frame a.length / a.length)
          offset := some (lerp_vector a.start a.end_
            (f (nextFrame a.frame a.length / a.length))) }] := by
  have hrun : Panel.forEachAnimation M p.animations.length 0 (p.toInteractive, p.animations)
      = some ({ p.toInteractive with
          position := lerp_vector a.start a.end_ (f (nextFrame a.frame a.length / a.length)) },
        if nextFrame a.frame a.length ≥ a.length then []
        else [{ a with
          frame := nextFrame a.frame a.length
          t := f (nextFrame a.frame a.length / a.length)
          offset := some (lerp_vector a.start a.end_
            (f (nextFrame a.frame a.length / a.length))) }]) := by
    rw [han]
    simp only [List.length_singleton, Panel.forEachAnimation, List.getElem?_cons_zero,
      AnimationVector.update, hf, hv, Interactive.setVField, if_true, vector.setV, vector.set,
      List.set_cons_zero, List.eraseIdx_cons_zero]
    split_ifs <;> rfl
  obtain ⟨p1, hp, hi, ha, hc⟩ := update_of_forEach M u p _ _ hch hrun
  have hmc := mouse_check_of_grab_disabled
    { p.toInteractive with
      position := lerp_vector a.start a.end_ (f (nextFrame a.frame a.length / a.length)) }
    u hgrab
  refine ⟨p1, hp, ?_, hc, ?_, ha⟩
  · have : p1.grab_enabled = p1.toInteractive.grab_enabled := rfl
    rw [this, hi]; exact hmc.2
  · have : p1.position = p1.toInteractive.position := rfl
    rw [this, hi]; exact hmc.1

theorem idle_step (M : JSMath α) (u : UserInput α) (p : Panel α)
    (hgrab : p.grab_enabled = false) (hch : Panel.SoundChildren p.children)
    (han : p.animations = []) :
    ∃ p1, Panel.update M u p = some p1 ∧ p1.grab_enabled = false ∧
      Panel.SoundChildren p1.children ∧ p1.position = p.position ∧ p1.animations = [] := by
  have hrun : Panel.forEachAnimation M p.animations.length 0 (p.toInteractive, p.animations)
      = some (p.toInteractive, []) := by
    rw [han]; rfl
  obtain ⟨p1, hp, hi, ha, hc⟩ := update_of_forEach M u p _ _ hch hrun
  have hmc := mouse_check_of_grab_disabled p.toInteractive u hgrab
  refine ⟨p1, hp, ?_, hc, ?_, ha⟩
  · have : p1.grab_enabled = p1.toInteractive.grab_enabled := rfl
    rw [this, hi]; exact hmc.2
  · have : p1.position = p1.toInteractive.position := rfl
    rw [this, hi]; exact hmc.1

theorem updates_append (M : JSMath α) (frames more : List (UserInput α)) (p : Panel α) :
    Panel.updates M (frames ++ more) p =
      match Panel.updates M frames p with
      | none => none
      | some p1 => Panel.updates M more p1 := by
  induction frames generalizing p with
  | nil => rfl
  | cons u rest ih =>
    simp only [List.cons_append, Panel.updates]
    cases Panel.update M u p with
    | none => rfl
    | some p1 => exact ih p1

theorem idle_run (M : JSMath α) :
    ∀ (frames : List (UserInput α)) (p : Panel α), p.grab_enabled = false →
      Panel.SoundChildren p.children → p.animations = [] →
      ∃ p1, Panel.updates M frames p = some p1 ∧ p1.grab_enabled = false ∧
        Panel.SoundChildren p1.children ∧ p1.position = p.position ∧ p1.animations = [] := by
  intro frames
  induction frames with
  | nil => exact fun p hg hc ha => ⟨p, rfl, hg, hc, rfl, ha⟩
  | cons u rest ih =>
    intro p hg hc ha
    obtain ⟨p1, hp, hg1, hc1, hpos1, ha1⟩ := idle_step M u p hg hc ha
    obtain ⟨p2, hp2, hg2, hc2, hpos2, ha2⟩ := ih p1 hg1 hc1 ha1
    exact ⟨p2, by simp only [Panel.updates, hp, hp2], hg2, hc2, hpos2.trans hpos1, ha2⟩

theorem shift_run (M : JSMath α) (f : α → α) (hf1 : f 1 = 1) (n : ℕ) :
    ∀ (frames : List (UserInput α)) (j : ℕ) (p : Panel α) (a : AnimationVector α),
      j < n → frames.length = n - j → p.grab_enabled = false →
      Panel.SoundChildren p.children → p.animations = [a] → a.value = "position" →
      easeFunctions M a.ease = some f → a.length = (n : α) → a.frame = (j : α) →
      ∃ p1, Panel.updates M frames p = some p1 ∧ p1.grab_enabled = false ∧
        Panel.SoundChildren p1.children ∧ p1.position = lerp_vector a.start a.end_ 1 ∧
        p1.animations = [] := by
  intro frames
  induction frames with
  | nil =>
    intro j p a hj hlen
    simp only [List.length_nil] at hlen
    omega
  | cons u rest ih =>
    intro j p a hj hlen hg hc ha hv hf hl hfr
    obtain ⟨p1, hp, hg1, hc1, hpos1, ha1⟩ := shift_step M u p a f hg hc ha hv hf
    have hnext : nextFrame a.frame a.length = ((j + 1 : ℕ) : α) := by
      rw [nextFrame_eq_min, hl, hfr]
      have : ((j : α) + 1) ≤ (n : α) := by exact_mod_cast hj
      rw [min_eq_left this]
      push_cast
      rfl
    rw [hnext, hl] at hpos1 ha1
    simp only [List.length_cons] at hlen
    by_cases hlast : j + 1 = n
    · have hrest : rest = [] := List.eq_nil_of_length_eq_zero (by omega)
      have hnpos : (n : α) ≠ 0 := by
        have : 0 < n := by omega
        exact_mod_cast (Nat.pos_iff_ne_zero.1 this)
      rw [hlast, div_self hnpos, hf1] at hpos1
      rw [hlast, if_pos (le_refl _)] at ha1
      subst hrest
      exact ⟨p1, by simp only [Panel.updates, hp], hg1, hc1, hpos1, ha1⟩
    · have hlt : j + 1 < n := by omega
      have hnot : ¬ ((j + 1 : ℕ) : α) ≥ (n : α) := by
        rw [ge_iff_le, not_le]
        exact_mod_cast hlt
      rw [if_neg hnot] at ha1
      obtain ⟨p2, hp2, hg2, hc2, hpos2, ha2⟩ :=
        ih (j + 1) p1 _ hlt (by omega) hg1 hc1 ha1 hv hf rfl rfl
      exact ⟨p2, by simp only [Panel.updates, hp, hp2], hg2, hc2, hpos2, ha2⟩

theorem easeFunctions_linear (M : JSMath α) : easeFunctions M "linear" = none := by
  simp [easeFunctions]

/-! ## Lemmas on the state left by a call that throws -/

theorem animationVector_updateRun_spec (M : JSMath α) (a : AnimationVector α)
    (w : Interactive α) :
    a.update M w = if (a.updateRun M w).2 = true then some (a.updateRun M w).1 else none := by
  unfold AnimationVector.update AnimationVector.updateRun
  cases easeFunctions M a.ease with
  | none => rfl
  | some f =>
    simp only
    cases w.setVField a.value
        (lerp_vector a.start a.end_ (f (nextFrame a.frame a.length / a.length))) with
    | none => rfl
    | some w1 => rfl

theorem forEachAnimationRun_spec (M : JSMath α) (n : Nat) :
    ∀ (k : Nat) (s : Interactive α × List (AnimationVector α)),
      Panel.forEachAnimation M n k s =
        if (Panel.forEachAnimationRun M n k s).2 = true
        then some (Panel.forEachAnimationRun M n k s).1 else none := by
  induction n with
  | zero => exact fun k s => rfl
  | succ n ih =>
    intro k s
    obtain ⟨i, as⟩ := s
    unfold Panel.forEachAnimation Panel.forEachAnimationRun
    cases hk : as[k]? with
    | none => exact ih (k + 1) (i, as)
    | some a =>
      simp only
      rw [animationVector_updateRun_spec]
      rcases hr : a.updateRun M i with ⟨⟨a1, i1⟩, ok⟩
      cases ok with
      | false => rfl
      | true =>
        simp only [if_true]
        split_ifs with h1 h2 h3 <;> first | rfl | (rw [ih] at *; simp_all)

theorem forEachAnimationRun_of_some (M : JSMath α) (n k : Nat)
    (s r : Interactive α × List (AnimationVector α))
    (h : Panel.forEachAnimation M n k s = some r) :
    Panel.forEachAnimationRun M n k s = (r, true) := by
  rw [forEachAnimationRun_spec] at h
  split_ifs at h with hok
  · simp only [Option.some.injEq] at h
    exact Prod.ext h hok

mutual
theorem updateRun_spec (M : JSMath α) (u : UserInput α) :
    ∀ (p : Panel α), Panel.update M u p =
      if (Panel.updateRun M u p).2 = true then some (Panel.updateRun M u p).1 else none
  | ⟨i, fill, stroke, lineWidth, borderRadius, children, animations⟩ => by
    have hc := updateChildrenRun_spec M u children
    simp only [Panel.update, Panel.updateRun, forEachAnimationRun_spec, hc]
    rcases Panel.forEachAnimationRun M animations.length 0 (i, animations) with ⟨⟨i1, as1⟩, ok⟩
    cases ok with
    | false => rfl
    | true =>
      rcases Panel.updateChildrenRun M u children with ⟨cs1, okc⟩
      cases okc with
      | false => rfl
      | true => rfl
theorem updateChildRun_spec (M : JSMath α) (u : UserInput α) :
    ∀ (c : Panel α ⊕ Label α), Panel.updateChild M u c =
      if (Panel.updateChildRun M u c).2 = true then some (Panel.updateChildRun M u c).1
      else none
  | Sum.inl p => by
    have hp := updateRun_spec M u p
    simp only [Panel.updateChild, Panel.updateChildRun, hp]
    split_ifs <;> rfl
  | Sum.inr l => rfl
theorem updateChildrenRun_spec (M : JSMath α) (u : UserInput α) :
    ∀ (cs : List (Panel α ⊕ Label α)), Panel.updateChildren M u cs =
      if (Panel.updateChildrenRun M u cs).2 = true
      then some (Panel.updateChildrenRun M u cs).1 else none
  | [] => rfl
  | c :: rest => by
    have hc := updateChildRun_spec M u c
    have hr := updateChildrenRun_spec M u rest
    simp only [Panel.updateChildren, Panel.updateChildrenRun, hc, hr]
    rcases Panel.updateChildRun M u c with ⟨c1, ok⟩
    cases ok with
    | false => rfl
    | true =>
      simp only [if_true]
      split_ifs <;> rfl
end

theorem updatesRun_spec (M : JSMath α) :
    ∀ (frames : List (UserInput α)) (p : Panel α), Panel.updates M frames p =
      if (Panel.updatesRun M frames p).2 = true then some (Panel.updatesRun M frames p).1
      else none := by
  intro frames
  induction frames with
  | nil => exact fun p => rfl
  | cons u rest ih =>
    intro p
    simp only [Panel.updates, Panel.updatesRun, updateRun_spec, Bool.and_eq_true]
    cases hok : (Panel.updateRun M u p).2 with
    | false => simp
    | true => simp [ih]

theorem forEach_single (M : JSMath α) (i : Interactive α) (a : AnimationVector α) (f : α → α)
    (hv : a.value = "position") (hf : easeFunctions M a.ease = some f) :
    Panel.forEachAnimation M 1 0 (i, [a]) =
      some ({ i with
          position := lerp_vector a.start a.end_ (f (nextFrame a.frame a.length / a.length)) },
        if nextFrame a.frame a.length ≥ a.length then []
        else [{ a with
          frame := nextFrame a.frame a.length
          t := f (nextFrame a.frame a.length / a.length)
          offset := some (lerp_vector a.start a.end_
            (f (nextFrame a.frame a.length / a.length))) }]) := by
  simp only [Panel.forEachAnimation, List.getElem?_cons_zero, AnimationVector.update, hf, hv,
    Interactive.setVField, if_true, vector.setV, vector.set, List.set_cons_zero,
    List.eraseIdx_cons_zero]
  split_ifs <;> rfl

theorem updateRun_of_forEach (M : JSMath α) (u : UserInput α) (p : Panel α)
    (i1 : Interactive α) (as1 : List (AnimationVector α))
    (hrun : Panel.forEachAnimation M p.animations.length 0 (p.toInteractive, p.animations)
      = some (i1, as1))
    (hg : i1.grab_enabled = false) :
    (Panel.updateRun M u p).1.position = i1.position ∧
    (Panel.updateRun M u p).1.grab_enabled = false ∧
    (Panel.updateRun M u p).1.animations = as1 := by
  obtain ⟨i, fill, stroke, lineWidth, borderRadius, children, animations⟩ := p
  have h := forEachAnimationRun_of_some M _ _ _ _ hrun
  simp only at h
  simp only [Panel.updateRun, h]
  rcases Panel.updateChildrenRun M u children with ⟨cs1, ok⟩
  cases ok with
  | false => exact ⟨rfl, hg, rfl⟩
  | true =>
    have hmc := mouse_check_of_grab_disabled i1 u hg
    exact ⟨hmc.1, hmc.2, rfl⟩

theorem shift_step_run (M : JSMath α) (u : UserInput α) (p : Panel α) (a : AnimationVector α)
    (f : α → α) (hgrab : p.grab_enabled = false) (han : p.animations = [a])
    (hv : a.value = "position") (hf : easeFunctions M a.ease = some f) :
    (Panel.updateRun M u p).1.grab_enabled = false ∧
    (Panel.updateRun M u p).1.position =
      lerp_vector a.start a.end_ (f (nextFrame a.frame a.length / a.length)) ∧
    (Panel.updateRun M u p).1.animations =
      if nextFrame a.frame a.length ≥ a.length then []
      else [{ a with
        frame := nextFrame a.frame a.length
        t := f (nextFrame a.frame a.length / a.length)
        offset := some (lerp_vector a.start a.end_
          (f (nextFrame a.frame a.length / a.length))) }] := by
  have hrun := forEach_single M p.toInteractive a f hv hf
  have hlen : p.animations.length = 1 := by rw [han]; rfl
  rw [← hlen, ← han] at hrun
  obtain ⟨h1, h2, h3⟩ := updateRun_of_forEach M u p _ _ hrun hgrab
  exact ⟨h2, h1, h3⟩

theorem idle_step_run (M : JSMath α) (u : UserInput α) (p : Panel α)
    (hgrab : p.grab_enabled = false) (han : p.animations = []) :
    (Panel.updateRun M u p).1.grab_enabled = false ∧
    (Panel.updateRun M u p).1.position = p.position ∧
    (Panel.updateRun M u p).1.animations = [] := by
  have hrun : Panel.forEachAnimation M p.animations.length 0 (p.toInteractive, p.animations)
      = some (p.toInteractive, []) := by
    rw [han]; rfl
  obtain ⟨h1, h2, h3⟩ := updateRun_of_forEach M u p _ _ hrun hgrab
  exact ⟨h2, h1, h3⟩

theorem idle_run_state (M : JSMath α) :
    ∀ (frames : List (UserInput α)) (p : Panel α), p.grab_enabled = false → p.animations = [] →
      (Panel.updatesRun M frames p).1.grab_enabled = false ∧
      (Panel.updatesRun M frames p).1.position = p.position ∧
      (Panel.updatesRun M frames p).1.animations = [] := by
  intro frames
  induction frames with
  | nil => exact fun p hg ha => ⟨hg, rfl, ha⟩
  | cons u rest ih =>
    intro p hg ha
    obtain ⟨hg1, hpos1, ha1⟩ := idle_step_run M u p hg ha
    obtain ⟨hg2, hpos2, ha2⟩ := ih (Panel.updateRun M u p).1 hg1 ha1
    exact ⟨hg2, hpos2.trans hpos1, ha2⟩

theorem shift_run_state (M : JSMath α) (f : α → α) (hf1 : f 1 = 1) (n : ℕ) :
    ∀ (frames : List (UserInput α)) (j : ℕ) (p : Panel α) (a : AnimationVector α),
      j < n → frames.length = n - j → p.grab_enabled = false → p.animations = [a] →
      a.value = "position" → easeFunctions M a.ease = some f → a.length = (n : α) →
      a.frame = (j : α) →
      (Panel.updatesRun M frames p).1.grab_enabled = false ∧
      (Panel.updatesRun M frames p).1.position = lerp_vector a.start a.end_ 1 ∧
      (Panel.updatesRun M frames p).1.animations = [] := by
  intro frames
  induction frames with
  | nil =>
    intro j p a hj hlen
    simp only [List.length_nil] at hlen
    omega
  | cons u rest ih =>
    intro j p a hj hlen hg ha hv hf hl hfr
    obtain ⟨hg1, hpos1, ha1⟩ := shift_step_run M u p a f hg ha hv hf
    have hnext : nextFrame a.frame a.length = ((j + 1 : ℕ) : α) := by
      rw [nextFrame_eq_min, hl, hfr]
      have : ((j : α) + 1) ≤ (n : α) := by exact_mod_cast hj
      rw [min_eq_left this]
      push_cast
      rfl
    rw [hnext, hl] at hpos1 ha1
    simp only [List.length_cons] at hlen
    by_cases hlast : j + 1 = n
    · have hrest : rest = [] := List.eq_nil_of_length_eq_zero (by omega)
      have hnpos : (n : α) ≠ 0 := by
        have : 0 < n := by omega
        exact_mod_cast (Nat.pos_iff_ne_zero.1 this)
      rw [hlast, div_self hnpos, hf1] at hpos1
      rw [hlast, if_pos (le_refl _)] at ha1
      subst hrest
      exact ⟨hg1, hpos1, ha1⟩
    · have hlt : j + 1 < n := by omega
      have hnot : ¬ ((j + 1 : ℕ) : α) ≥ (n : α) := by
        rw [ge_iff_le, not_le]
        exact_mod_cast hlt
      rw [if_neg hnot] at ha1
      obtain ⟨h1, h2, h3⟩ :=
        ih (j + 1) (Panel.updateRun M u p).1 _ hlt (by omega) hg1 ha1 hv hf rfl rfl
      exact ⟨h1, h2, h3⟩

theorem updatesRun_of_some (M : JSMath α) (frames : List (UserInput α)) (p p1 : Panel α)
    (h : Panel.updates M frames p = some p1) :
    Panel.updatesRun M frames p = (p1, true) := by
  rw [updatesRun_spec] at h
  split_ifs at h with hok
  · simp only [Option.some.injEq] at h
    exact Prod.ext h hok

/-- A call of `update()` throws when a child holds an animation whose easing
name is not registered: the panel `brokenChildPanel` after
`shift((10, 10), 1, 'inOutCubic')`. -/
theorem update_throws_in_child :
    Panel.updates realMath [user_input]
      ((brokenChildPanel : Panel ℝ).shift { x := 10, y := 10 } ((1 : ℕ) : ℝ) "inOutCubic")
      = none := by
  norm_num [Panel.updates, brokenChildPanel, Panel.shift, Panel.move, Panel.new,
    Interactive.new, Panel.update, Panel.updateChildren, Panel.updateChild,
    Panel.forEachAnimation, AnimationVector.update, AnimationVector.new, nextFrame,
    easeFunctions_inOutCubic, easeFunctions_linear, easeInOutCubic_one,
    Interactive.setVField, lerp_vector, lerp, vector.setV, vector.set, vector.copy,
    vector.addV, vector.add]

/-! ## Claim on the shift animation -/

/-- C27: a shift animation lands exactly on its target. For every panel with
grab disabled, no queued animation and position `p`, every offset `x`, every
whole duration `n ≥ 1` and every registered easing: after `shift(x, n, ease)`
and `n` calls of `update()`, whatever the input of each frame, the position is
`p + x` in exact real arithmetic and the animation list is empty, and after any
further calls of `update()` the position is still `p + x` and the list still
empty. This holds for the state the calls leave even when a call throws in a
child. When every animation queued in a panel below has a registered easing
name and targets a vector-valued field, every one of these calls returns. -/
theorem shift_lands_on_target (p : Panel ℝ) (x : vector ℝ) (n : ℕ) (ease : String)
    (frames more : List (UserInput ℝ)) (hgrab : p.grab_enabled = false)
    (hempty : p.animations = []) (hn : 1 ≤ n) (hease : ease ∈ easeNames)
    (hframes : frames.length = n) :
    ((Panel.updatesRun realMath frames (p.shift x (n : ℝ) ease)).1.position
        = { x := p.position.x + x.x, y := p.position.y + x.y } ∧
      (Panel.updatesRun realMath frames (p.shift x (n : ℝ) ease)).1.animations = [] ∧
      (Panel.updatesRun realMath more
          (Panel.updatesRun realMath frames (p.shift x (n : ℝ) ease)).1).1.position
        = { x := p.position.x + x.x, y := p.position.y + x.y } ∧
      (Panel.updatesRun realMath more
          (Panel.updatesRun realMath frames (p.shift x (n : ℝ) ease)).1).1.animations = []) ∧
    (Panel.SoundChildren p.children →
      (Panel.updatesRun realMath frames (p.shift x (n : ℝ) ease)).2 = true ∧
      (Panel.updatesRun realMath more
          (Panel.updatesRun realMath frames (p.shift x (n : ℝ) ease)).1).2 = true ∧
      Panel.updates realMath (frames ++ more) (p.shift x (n : ℝ) ease)
        = some (Panel.updatesRun realMath more
          (Panel.updatesRun realMath frames (p.shift x (n : ℝ) ease)).1).1) := by
  obtain ⟨f, hf⟩ := easeFunctions_of_mem realMath ease hease
  have hf1 : f 1 = 1 := ease_one ease f hf
  have han : (p.shift x (n : ℝ) ease).animations
      = [AnimationVector.new "position" p.position.copy (p.position.copy.addV x) (n : ℝ) ease] := by
    simp [Panel.shift, hempty]
  have hend : lerp_vector (AnimationVector.new "position" p.position.copy
      (p.position.copy.addV x) (n : ℝ) ease).start (AnimationVector.new "position"
      p.position.copy (p.position.copy.addV x) (n : ℝ) ease).end_ 1
      = { x := p.position.x + x.x, y := p.position.y + x.y } := by
    simp [AnimationVector.new, lerp_vector, lerp, vector.copy, vector.addV, vector.add]
  obtain ⟨hg1, hpos1, ha1⟩ :=
    shift_run_state realMath f hf1 n frames 0 (p.shift x (n : ℝ) ease) _ (by omega)
      (by omega) hgrab han rfl hf rfl Nat.cast_zero.symm
  rw [hend] at hpos1
  obtain ⟨_, hpos2, ha2⟩ := idle_run_state realMath more _ hg1 ha1
  refine ⟨⟨hpos1, ha1, hpos2.trans hpos1, ha2⟩, ?_⟩
  intro hch
  obtain ⟨p1, hp1, hgp1, hcp1, _, hap1⟩ :=
    shift_run realMath f hf1 n frames 0 (p.shift x (n : ℝ) ease) _ (by omega)
      (by omega) hgrab hch han rfl hf rfl Nat.cast_zero.symm
  obtain ⟨p2, hp2, _, _, _, _⟩ := idle_run realMath more p1 hgp1 hcp1 hap1
  have e1 := updatesRun_of_some realMath frames _ p1 hp1
  have e2 := updatesRun_of_some realMath more p1 p2 hp2
  have happ : Panel.updates realMath (frames ++ more) (p.shift x (n : ℝ) ease) = some p2 := by
    rw [updates_append, hp1]
    exact hp2
  have f1 := congrArg Prod.fst e1
  have f2 := congrArg Prod.fst e2
  simp only at f1 f2
  rw [f1, f2]
  exact ⟨congrArg Prod.snd e1, congrArg Prod.snd e2, happ⟩

/-- Witness of C27: the panel `innerPanel` at `(10, 10)`, without children,
after `shift((10, 10), 2, 'inOutCubic')`: two calls of `update()` bring it to
`(20, 20)`, where a third call leaves it. -/
theorem shift_lands_on_target_witness :
    (Panel.updatesRun realMath [user_input, user_input]
        ((innerPanel : Panel ℝ).shift { x := 10, y := 10 } ((2 : ℕ) : ℝ) "inOutCubic")).1.position
      = { x := 10 + 10, y := 10 + 10 } ∧
    (Panel.updatesRun realMath [user_input, user_input]
        ((innerPanel : Panel ℝ).shift { x := 10, y := 10 } ((2 : ℕ) : ℝ)
          "inOutCubic")).1.animations = [] ∧
    (Panel.updatesRun realMath [user_input]
        (Panel.updatesRun realMath [user_input, user_input]
          ((innerPanel : Panel ℝ).shift { x := 10, y := 10 } ((2 : ℕ) : ℝ)
            "inOutCubic")).1).1.position
      = { x := 10 + 10, y := 10 + 10 } ∧
    (Panel.updatesRun realMath [user_input, user_input]
        ((innerPanel : Panel ℝ).shift { x := 10, y := 10 } ((2 : ℕ) : ℝ) "inOutCubic")).2
      = true :=
  ⟨(shift_lands_on_target innerPanel { x := 10, y := 10 } 2 "inOutCubic"
      [user_input, user_input] [user_input] rfl rfl (by norm_num) (by simp [easeNames])
      rfl).1.1,
    (shift_lands_on_target innerPanel { x := 10, y := 10 } 2 "inOutCubic"
      [user_input, user_input] [user_input] rfl rfl (by norm_num) (by simp [easeNames])
      rfl).1.2.1,
    (shift_lands_on_target innerPanel { x := 10, y := 10 } 2 "inOutCubic"
      [user_input, user_input] [user_input] rfl rfl (by norm_num) (by simp [easeNames])
      rfl).1.2.2.1,
    ((shift_lands_on_target innerPanel { x := 10, y := 10 } 2 "inOutCubic"
      [user_input, user_input] [user_input] rfl rfl (by norm_num) (by simp [easeNames])
      rfl).2 (by simp [innerPanel, Panel.new, Panel.SoundChildren])).1⟩

end PiDay
